import Mathlib

/-!
Verification of the streaming ANSI terminal emulator (screen buffer + byte
stream state machine). The definitions below are a shallow embedding of the
Go sources: `parser.go` (the byte-level state machine) and the screen file
(`Screen`, cursor motion, erasure, line allocation and scroll-out).

Machine integers are modelled as `Int` (Go `int`), bytes and runes as `Nat`.
Go slices become lists; the mutable screen becomes explicit state passing.
External collaborators that are out of scope of the sources (the element
parser, the Buildkite APC decoder, the per-line renderers, the style value)
are modelled from the spec and marked as such.
-/

set_option maxRecDepth 100000
set_option maxHeartbeats 1000000

namespace TermToHtml

/-- Go unicode/utf8.RuneError (U+FFFD). -/
def runeError : Nat := 0xFFFD

/-- Size and second-byte accept window for a UTF-8 leading byte, following
Go unicode/utf8 (the `first` table and `acceptRanges`). `none` means the
byte is not a valid leading byte of a multi-byte sequence. -/
def utf8Info (b0 : Nat) : Option (Nat × Nat × Nat) :=
  if 0xC2 ≤ b0 ∧ b0 ≤ 0xDF then some (2, 0x80, 0xBF)
  else if b0 = 0xE0 then some (3, 0xA0, 0xBF)
  else if 0xE1 ≤ b0 ∧ b0 ≤ 0xEC then some (3, 0x80, 0xBF)
  else if b0 = 0xED then some (3, 0x80, 0x9F)
  else if 0xEE ≤ b0 ∧ b0 ≤ 0xEF then some (3, 0x80, 0xBF)
  else if b0 = 0xF0 then some (4, 0x90, 0xBF)
  else if 0xF1 ≤ b0 ∧ b0 ≤ 0xF3 then some (4, 0x80, 0xBF)
  else if b0 = 0xF4 then some (4, 0x80, 0x8F)
  else none

/-- Go unicode/utf8.DecodeRune: decodes the first codepoint of a byte slice,
returning the rune and the number of bytes consumed. Invalid or truncated
encodings yield `(RuneError, 1)` (and `(RuneError, 0)` on empty input). -/
def decodeRune (p : List Nat) : Nat × Nat :=
  match p with
  | [] => (runeError, 0)
  | b0 :: rest =>
    if b0 < 0x80 then (b0, 1)
    else
      match utf8Info b0 with
      | none => (runeError, 1)
      | some (sz, lo, hi) =>
        match rest with
        | [] => (runeError, 1)
        | b1 :: rest2 =>
          if b1 < lo ∨ hi < b1 then (runeError, 1)
          else if sz = 2 then ((b0 % 0x20) * 0x40 + b1 % 0x40, 2)
          else
            match rest2 with
            | [] => (runeError, 1)
            | b2 :: rest3 =>
              if b2 < 0x80 ∨ 0xBF < b2 then (runeError, 1)
              else if sz = 3 then
                ((b0 % 0x10) * 0x1000 + (b1 % 0x40) * 0x40 + b2 % 0x40, 3)
              else
                match rest3 with
                | [] => (runeError, 1)
                | b3 :: _ =>
                  if b3 < 0x80 ∨ 0xBF < b3 then (runeError, 1)
                  else ((b0 % 8) * 0x40000 + (b1 % 0x40) * 0x1000 +
                        (b2 % 0x40) * 0x40 + b3 % 0x40, 4)

/-- Go unicode.ToUpper restricted to the ASCII range. The only runes the
full Unicode mapping sends into ASCII are U+0131 → I and U+017F → S, and
neither I nor S is matched by the control-sequence switch, so this is
extensionally faithful for every dispatch made on the result. -/
def toUpper (c : Nat) : Nat :=
  if 0x61 ≤ c ∧ c ≤ 0x7A then c - 0x20 else c

/-- Go strconv.Atoi on a byte string (64-bit platform). `none` models a
non-nil error: empty input, a non-digit byte, or 64-bit range overflow. -/
def atoi (s : List Nat) : Option Int :=
  let sign : Int := if s.head? = some 0x2D then -1 else 1
  let ds : List Nat :=
    if s.head? = some 0x2B ∨ s.head? = some 0x2D then s.tail else s
  if ds = [] then none
  else if ds.all (fun b => decide (0x30 ≤ b ∧ b ≤ 0x39)) then
    let v : Nat := ds.foldl (fun a b => a * 10 + (b - 0x30)) 0
    let i : Int := sign * (v : Int)
    if i < -(2 ^ 63) ∨ (2 ^ 63 - 1 : Int) < i then none else some i
  else none

/-- ansiInt parses s as a decimal integer; if s is empty or malformed it
returns 1 (screen file, lines 119-130). -/
def ansiInt (s : List Nat) : Int :=
  if s = [] then 1
  else match atoi s with
    | none => 1
    | some i => i

/-- Go's % on int: truncated modulus. -/
def goMod (a b : Int) : Int := Int.tmod a b

/-- Modelled from the spec: the style value is an external opaque attribute
record with `color(codes)`, `hyperlink()` and `setElement(bool)` accessors
(spec declares it out of scope). Modelled as flags plus the accumulated SGR
parameter lists. -/
structure Style where
  sgr : List (List Nat)
  hyperlinkFlag : Bool
  elementFlag : Bool
deriving DecidableEq

/-- Default (zero) style. -/
def emptyStyle : Style := { sgr := [], hyperlinkFlag := false, elementFlag := false }

/-- Modelled from the spec: the SGR update rule of the opaque style value;
recorded as accumulating the parameter lists. -/
def Style.color (s : Style) (i : List (List Nat)) : Style :=
  { s with sgr := s.sgr ++ i }

/-- Style.hyperlink() accessor. -/
def Style.hyperlink (s : Style) : Bool := s.hyperlinkFlag

/-- Style.setElement accessor. -/
def Style.setElement (s : Style) (b : Bool) : Style := { s with elementFlag := b }

/-- A cell: a rune (or element index) plus a style. -/
structure Node where
  blob : Nat
  style : Style
deriving DecidableEq

/-- Modelled from the spec: the sentinel empty cell has glyph space and
default style (the node file is not part of the sources). -/
def emptyNode : Node := { blob := 0x20, style := emptyStyle }

/-- Modelled from the spec: an embedded non-character element decoded from
an OSC payload; it carries an elementType with at least the LINK value. -/
structure element where
  elementType : Nat
deriving DecidableEq

/-- Modelled from the spec: the ELEMENT_LINK tag value. -/
def ELEMENT_LINK : Nat := 0

/-- Association-list update (models Go map assignment m[k] = v). -/
def assocSet {κ α : Type} [BEq κ] (m : List (κ × α)) (k : κ) (v : α) :
    List (κ × α) :=
  if m.any (fun kv => kv.1 == k) then
    m.map (fun kv => if kv.1 == k then (k, v) else kv)
  else m ++ [(k, v)]

/-- Association-list lookup (models Go map read m[k]). -/
def assocGet {κ α : Type} [BEq κ] (m : List (κ × α)) (k : κ) : Option α :=
  (m.find? (fun kv => kv.1 == k)).map (fun kv => kv.2)

/-- A screen line: cells, line metadata, embedded elements and the sparse
hyperlink overlay (screen file, lines 468-485). Go maps are modelled as
association lists. -/
structure ScreenLine where
  nodes : List Node
  metadata : List (List Nat × List (List Nat × List Nat))
  elements : List element
  hyperlinks : List (Int × List Nat)
deriving DecidableEq

/-- A fresh empty line (screenLine zero value with empty nodes). -/
def emptyScreenLine : ScreenLine :=
  { nodes := [], metadata := [], elements := [], hyperlinks := [] }

/-- List lookup with the empty line as default. -/
def getLineD (ls : List ScreenLine) (i : Nat) : ScreenLine :=
  ls.getD i emptyScreenLine

/-- screenLine.clearAll: truncate the cells to length 0 (nil receiver
handled at the call sites). -/
def ScreenLine.clearAll (l : ScreenLine) : ScreenLine := { l with nodes := [] }

/-- Modelled from the spec: the per-line HTML renderer line.asHTML() is an
external collaborator (spec declares renderers out of scope); modelled as
the list of cell glyphs. -/
def ScreenLine.asHTML (l : ScreenLine) : List Nat := l.nodes.map (fun n => n.blob)

/-- Modelled from the spec: the per-line plain renderer line.asPlain(),
likewise external; modelled as the list of cell glyphs. -/
def ScreenLine.asPlain (l : ScreenLine) : List Nat := l.nodes.map (fun n => n.blob)

/-- screenStartOfLine = 0. -/
def screenStartOfLine : Int := 0

/-- screenEndOfLine = math.MaxInt. -/
def screenEndOfLine : Int := 2 ^ 63 - 1

/-- screenLine.clear: clears the inclusive column range xStart..xEnd
(screen file, lines 494-523). -/
def ScreenLine.clear (l : ScreenLine) (xStart xEnd : Int) : ScreenLine :=
  let xs : Int := if xStart < 0 then 0 else xStart
  if xEnd < xs then l
  else if (l.nodes.length : Int) ≤ xs then l
  else if (l.nodes.length : Int) - 1 ≤ xEnd then
    { l with nodes := l.nodes.take xs.toNat }
  else
    let cleared := l.nodes.mapIdx
      (fun i n => if xs ≤ (i : Int) ∧ (i : Int) ≤ xEnd then emptyNode else n)
    { l with nodes := cleared }

/-- The Screen state (screen file, lines 16-58). The ScrollOutFunc callback
is modelled by a flag plus the log of HTML strings it has been called with,
in call order. -/
structure Screen where
  x : Int
  y : Int
  screen : List ScreenLine
  style : Style
  urlBrush : List Nat
  maxLines : Int
  maxColumns : Int
  cols : Int
  lines : Int
  hasScrollOutFunc : Bool
  scrollOutLog : List (List Nat)
  linesScrolledOut : Int
  cursorUpOOB : Int
  cursorDownOOB : Int
  cursorFwdOOB : Int
  cursorBackOOB : Int
deriving DecidableEq

/-- top(): index where the window begins (screen file, lines 179-181). -/
def Screen.top (s : Screen) : Int := max 0 ((s.screen.length : Int) - s.lines)

/-- currentLine(): index of the cursor line, or none if no such line exists
in the buffer yet (screen file, lines 185-191). -/
def Screen.currentLineIdx? (s : Screen) : Option Nat :=
  let yidx := s.top + s.y
  if yidx < 0 ∨ (s.screen.length : Int) ≤ yidx then none else some yidx.toNat

/-- One iteration of the currentLineForWriting allocation loop (screen
file, lines 198-230): either append a fresh line (compensating y when the
window slides), or scroll the top line out (logging its HTML when the
callback is set, counting it, and recycling its cell slice). -/
def Screen.clfwStep (s : Screen) : Screen :=
  if s.maxLines ≤ 0 ∨ (s.screen.length : Int) + 1 ≤ s.maxLines then
    let s' := { s with screen := s.screen ++ [emptyScreenLine] }
    if s'.y ≥ s'.lines then { s' with y := s'.y - 1 } else s'
  else
    match s.screen with
    | [] => s
    | l0 :: rest =>
      let s' :=
        if s.hasScrollOutFunc then
          { s with scrollOutLog := s.scrollOutLog ++ [l0.asHTML] }
        else s
      { s' with
        linesScrolledOut := s'.linesScrolledOut + 1,
        screen := rest ++ [emptyScreenLine],
        y := s'.y - 1 }

/-- The allocation loop itself: run clfwStep while currentLine is nil. The
fuel only bounds the recursion; the chosen fuel below always suffices on
states the Go code reaches. -/
def clfwLoop : Nat → Screen → Screen
  | 0, s => s
  | Nat.succ fuel, s =>
    if s.currentLineIdx? = none then clfwLoop fuel s.clfwStep else s

/-- A fuel bound for the allocation loop: every iteration either decrements
y or grows the buffer toward the cursor, so this is sufficient on all
reachable states. -/
def Screen.clfwFuel (s : Screen) : Nat :=
  2 * s.y.toNat + s.lines.toNat + s.screen.length + 4

/-- currentLineForWriting (screen file, lines 196-239): ensure a line
exists at the cursor, then right-pad its cells up to column x. Returns the
index of the cursor line (none is unreachable in Go and only arises here on
states where the Go loop would not terminate either). -/
def Screen.currentLineForWriting (s : Screen) : Screen × Option Nat :=
  let s1 := clfwLoop s.clfwFuel s
  match s1.currentLineIdx? with
  | none => (s1, none)
  | some i =>
    let line := getLineD s1.screen i
    let padded :=
      { line with nodes := line.nodes ++
          List.replicate ((s1.x + 1 - (line.nodes.length : Int)).toNat) emptyNode }
    ({ s1 with screen := s1.screen.set i padded }, some i)

/-- write (screen file, lines 242-253): put a rune at the cursor with the
current style; record the hyperlink brush when the style has the link bit. -/
def Screen.write (s : Screen) (r : Nat) : Screen :=
  match s.currentLineForWriting with
  | (s1, none) => s1
  | (s1, some i) =>
    let line := getLineD s1.screen i
    let line' := { line with
      nodes := line.nodes.set s1.x.toNat { blob := r, style := s1.style } }
    let line'' :=
      if s1.style.hyperlink then
        { line' with hyperlinks := assocSet line'.hyperlinks s1.x s1.urlBrush }
      else line'
    { s1 with screen := s1.screen.set i line'' }

/-- append (screen file, lines 256-259). -/
def Screen.append (s : Screen) (r : Nat) : Screen :=
  let s' := s.write r
  { s' with x := s'.x + 1 }

/-- appendMany (screen file, lines 262-266). -/
def Screen.appendMany (s : Screen) (data : List Nat) : Screen :=
  data.foldl Screen.append s

/-- appendElement (screen file, lines 268-276). -/
def Screen.appendElement (s : Screen) (i : element) : Screen :=
  match s.currentLineForWriting with
  | (s1, none) => s1
  | (s1, some li) =>
    let line := getLineD s1.screen li
    let idx := line.elements.length
    let line' := { line with
      elements := line.elements ++ [i],
      nodes := line.nodes.set s1.x.toNat
        { blob := idx, style := s1.style.setElement true } }
    { s1 with screen := s1.screen.set li line', x := s1.x + 1 }

/-- setLineMetadata (screen file, lines 280-300): merge data into the
current line's metadata under the namespace, new keys overwriting old. -/
def Screen.setLineMetadata (s : Screen) (ns : List Nat)
    (data : List (List Nat × List Nat)) : Screen :=
  match s.currentLineForWriting with
  | (s1, none) => s1
  | (s1, some i) =>
    let line := getLineD s1.screen i
    let line' :=
      if line.metadata = [] then { line with metadata := [(ns, data)] }
      else
        match assocGet line.metadata ns with
        | none => { line with metadata := line.metadata ++ [(ns, data)] }
        | some old =>
          let merged := data.foldl (fun m kv => assocSet m kv.1 kv.2) old
          { line with metadata := assocSet line.metadata ns merged }
    { s1 with screen := s1.screen.set i line' }

/-- color (screen file, lines 303-305). -/
def Screen.color (s : Screen) (i : List (List Nat)) : Screen :=
  { s with style := s.style.color i }

/-- up (screen file, lines 133-145): move the cursor up, clamping at 0 and
counting the clamp; then wrap x at the window width. -/
def Screen.up (s : Screen) (i : List Nat) : Screen :=
  let y1 := s.y - ansiInt i
  let y2 : Int := if y1 < 0 then 0 else y1
  let c : Int := if y1 < 0 then s.cursorUpOOB + 1 else s.cursorUpOOB
  { s with y := y2, cursorUpOOB := c, x := goMod s.x s.cols }

/-- down (screen file, lines 148-155). -/
def Screen.down (s : Screen) (i : List Nat) : Screen :=
  let y1 := s.y + ansiInt i
  let y2 : Int := if y1 ≥ s.lines then s.lines - 1 else y1
  let c : Int := if y1 ≥ s.lines then s.cursorDownOOB + 1 else s.cursorDownOOB
  { s with y := y2, cursorDownOOB := c, x := goMod s.x s.cols }

/-- forward (screen file, lines 158-164). -/
def Screen.forward (s : Screen) (i : List Nat) : Screen :=
  let x1 := s.x + ansiInt i
  let x2 : Int := if x1 ≥ s.cols then s.cols - 1 else x1
  let c : Int := if x1 ≥ s.cols then s.cursorFwdOOB + 1 else s.cursorFwdOOB
  { s with x := x2, cursorFwdOOB := c }

/-- backward (screen file, lines 167-173). -/
def Screen.backward (s : Screen) (i : List Nat) : Screen :=
  let x1 := s.x - ansiInt i
  let x2 : Int := if x1 < 0 then 0 else x1
  let c : Int := if x1 < 0 then s.cursorBackOOB + 1 else s.cursorBackOOB
  { s with x := x2, cursorBackOOB := c }

/-- newLine (screen file, lines 447-450). -/
def Screen.newLine (s : Screen) : Screen := { s with x := 0, y := s.y + 1 }

/-- revNewLine (screen file, lines 452-456). -/
def Screen.revNewLine (s : Screen) : Screen :=
  if s.y > 0 then { s with y := s.y - 1 } else s

/-- carriageReturn (screen file, lines 458-460). -/
def Screen.carriageReturn (s : Screen) : Screen := { s with x := 0 }

/-- backspace (screen file, lines 462-466). -/
def Screen.backspace (s : Screen) : Screen :=
  if s.x > 0 then { s with x := s.x - 1 } else s

/-- The `s.currentLine().clear(...)` pattern of applyEscape: clear part of
the cursor line; a nil currentLine makes it a no-op (nil receiver). -/
def Screen.clearCurrentLine (s : Screen) (xs xe : Int) : Screen :=
  match s.currentLineIdx? with
  | none => s
  | some i =>
    { s with screen := s.screen.set i ((getLineD s.screen i).clear xs xe) }

/-- The `s.currentLine().clearAll()` pattern (K2 case). -/
def Screen.clearAllCurrentLine (s : Screen) : Screen :=
  match s.currentLineIdx? with
  | none => s
  | some i =>
    { s with screen := s.screen.set i (getLineD s.screen i).clearAll }

/-- Modelled from the spec: Screen.clear(y, xStart, xEnd), the row-targeted
clear used by the OSC element path; the sources only contain
screenLine.clear, not this Screen method. Per its call site it clears the
given column range of viewport row y. -/
def Screen.clearRow (s : Screen) (y xs xe : Int) : Screen :=
  let yidx := s.top + y
  if yidx < 0 ∨ (s.screen.length : Int) ≤ yidx then s
  else
    let cleared := (getLineD s.screen yidx.toNat).clear xs xe
    { s with screen := s.screen.set yidx.toNat cleared }

/-- The clearAll loop of the J1 case (screen file, lines 381-385). -/
def clearAllRange (ls : List ScreenLine) (t e : Int) : List ScreenLine :=
  ls.mapIdx (fun i l => if t ≤ (i : Int) ∧ (i : Int) < e then l.clearAll else l)

/-- The J (Erase in Display) switch of applyEscape (screen file, lines
363-400). -/
def Screen.applyJ (s : Screen) (arg : List Nat) : Screen :=
  if arg = [0x30] ∨ arg = [] then
    let s1 := s.clearCurrentLine s.x screenEndOfLine
    let yidx := s1.top + s1.y
    if yidx < 0 ∨ (s1.screen.length : Int) ≤ yidx then s1
    else { s1 with screen := s1.screen.take (yidx.toNat + 1) }
  else if arg = [0x31] then
    let s1 := s.clearCurrentLine screenStartOfLine s.x
    let t := s1.top
    let e := min (t + s1.y) (s1.screen.length : Int)
    { s1 with screen := clearAllRange s1.screen t e }
  else if arg = [0x32] then
    { s with screen := s.screen.take s.top.toNat, x := 0, y := 0 }
  else if arg = [0x33] then
    { s with screen := [], x := 0, y := 0 }
  else s

/-- The K (Erase in Line) switch of applyEscape (screen file, lines
402-412). -/
def Screen.applyK (s : Screen) (arg : List Nat) : Screen :=
  if arg = [0x30] ∨ arg = [] then s.clearCurrentLine s.x screenEndOfLine
  else if arg = [0x31] then s.clearCurrentLine screenStartOfLine s.x
  else if arg = [0x32] then s.clearAllCurrentLine
  else s

/-- The bounds-checked instruction accessor of applyEscape (screen file,
lines 311-316): instructions not supplied default to the empty string. -/
def instGet (instructions : List (List Nat)) (i : Nat) : List Nat :=
  instructions.getD i []

/-- applyEscape (screen file, lines 308-417): a ?-prefixed first parameter
silences the whole sequence. -/
def Screen.applyEscape (s : Screen) (code : Nat)
    (instructions : List (List Nat)) : Screen :=
  if (instGet instructions 0).head? = some 0x3F then s
  else if code = 0x41 then s.up (instGet instructions 0)
  else if code = 0x42 then s.down (instGet instructions 0)
  else if code = 0x43 then s.forward (instGet instructions 0)
  else if code = 0x44 then s.backward (instGet instructions 0)
  else if code = 0x45 then Screen.down { s with x := 0 } (instGet instructions 0)
  else if code = 0x46 then Screen.up { s with x := 0 } (instGet instructions 0)
  else if code = 0x47 then
    { s with x := min (max (ansiInt (instGet instructions 0) - 1) 0) (s.cols - 1) }
  else if code = 0x48 then
    { s with
      y := min (max (ansiInt (instGet instructions 0) - 1) 0) (s.lines - 1),
      x := min (max (ansiInt (instGet instructions 1) - 1) 0) (s.cols - 1) }
  else if code = 0x4A then s.applyJ (instGet instructions 0)
  else if code = 0x4B then s.applyK (instGet instructions 0)
  else if code = 0x4D then s.color instructions
  else s

/-- AsPlainText (screen file, lines 437-445), through the modelled asPlain
renderer: newline-joined per-line renderings. -/
def Screen.asPlainText (s : Screen) : List Nat :=
  List.intercalate [0x0A] (s.screen.map ScreenLine.asPlain)

/-- Parser modes (parser.go, lines 8-17). -/
inductive PMode where
  | normal
  | escape
  | control
  | osc
  | oscEsc
  | charset
  | apc
  | apcEsc
deriving DecidableEq

/-- The combined screen + incremental byte-stream state (parser.go, lines
19-36; the Go parser holds a back-reference to its Screen, so both are one
state here). savePosition is split into its two fields. -/
structure PState where
  screen : Screen
  buffer : List Nat
  mode : PMode
  cursor : Int
  escapeStartedAt : Int
  instructions : List (List Nat)
  instructionStartedAt : Int
  saveX : Int
  saveY : Int
deriving DecidableEq

/-- The external collaborators (spec: element parser and Buildkite APC
decoder, referenced only by interface). Error values are the rune lists of
err.Error(). -/
structure Collab where
  parseElementSequence : List Nat → Option element × Option (List Nat)
  parseBuildkiteAPC : List Nat → Option (List (List Nat × List Nat)) × Option (List Nat)

/-- Modelled from the spec: the fixed Buildkite metadata namespace ("bk"). -/
def bkNamespace : List Nat := [0x62, 0x6B]

/-- Rune list of the OSC error prefix literal (parser.go, line 202). -/
def oscErrPrefix : List Nat :=
  ("*** Error parsing custom element escape sequence: ").toList.map Char.toNat

/-- Rune list of the APC error prefix literal (parser.go, line 268). -/
def apcErrPrefix : List Nat :=
  ("*** Error parsing Buildkite APC ANSI escape sequence: ").toList.map Char.toNat

/-- handleNormal (parser.go, lines 304-318). -/
def PState.handleNormal (p : PState) (char : Nat) : PState :=
  if char = 0x0A then { p with screen := p.screen.newLine }
  else if char = 0x0D then { p with screen := p.screen.carriageReturn }
  else if char = 0x08 then { p with screen := p.screen.backspace }
  else if char = 0x1B then { p with escapeStartedAt := p.cursor, mode := .escape }
  else { p with screen := p.screen.append char }

/-- handleEscape (parser.go, lines 321-351). -/
def PState.handleEscape (p : PState) (char : Nat) : PState :=
  if char = 0x5B then
    { p with instructionStartedAt := p.cursor + 1, instructions := [],
             mode := .control }
  else if char = 0x5D then
    { p with instructionStartedAt := p.cursor + 1, mode := .osc }
  else if char = 0x29 ∨ char = 0x28 then
    { p with instructionStartedAt := p.cursor + 1, mode := .charset }
  else if char = 0x5F then
    { p with instructionStartedAt := p.cursor + 1, mode := .apc }
  else if char = 0x4D then { p with screen := p.screen.revNewLine, mode := .normal }
  else if char = 0x37 then
    { p with saveX := p.screen.x, saveY := p.screen.y, mode := .normal }
  else if char = 0x38 then
    { p with screen := { p.screen with x := p.saveX, y := p.saveY },
             mode := .normal }
  else { p with cursor := p.escapeStartedAt, mode := .normal }

/-- addInstruction (parser.go, lines 355-360): append the parameter slice
buffer[instructionStartedAt:cursor] if nonempty. -/
def PState.addInstruction (p : PState) : PState :=
  let inst := (p.buffer.drop p.instructionStartedAt.toNat).take
      (p.cursor - p.instructionStartedAt).toNat
  if inst = [] then p else { p with instructions := p.instructions ++ [inst] }

/-- handleControlSequence (parser.go, lines 281-301): dispatch on the
uppercased character. -/
def PState.handleControlSequence (p : PState) (char0 : Nat) : PState :=
  let char := toUpper char0
  if char = 0x3F ∨ (0x30 ≤ char ∧ char ≤ 0x39) then p
  else if char = 0x3B then
    let p1 := p.addInstruction
    { p1 with instructionStartedAt := p1.cursor + 1 }
  else if char ∈ [0x41, 0x42, 0x43, 0x44, 0x45, 0x46, 0x47, 0x4A, 0x4B, 0x4D, 0x51] then
    let p1 := p.addInstruction
    { p1 with screen := p1.screen.applyEscape char p1.instructions,
              mode := .normal }
  else if char = 0x48 ∨ char = 0x4C then { p with mode := .normal }
  else { p with cursor := p.escapeStartedAt, mode := .normal }

/-- The own-line preamble of processOperatingSystemCommand (parser.go,
lines 193-199): break to a fresh line when mid-line, then blank the
cursor row. -/
def Screen.oscOwnLinePre (s : Screen) : Screen :=
  let s1 := if s.x ≠ 0 then s.newLine else s
  s1.clearRow s1.y screenStartOfLine screenEndOfLine

/-- The rendering stage of processOperatingSystemCommand (parser.go,
lines 201-206): the error text, or the element. -/
def Screen.oscRender (s : Screen) (img? : Option element) (err? : Option (List Nat)) :
    Screen :=
  match err? with
  | some e => (s.appendMany oscErrPrefix).appendMany e
  | none =>
    match img? with
    | some i => s.appendElement i
    | none => s

/-- processOperatingSystemCommand (parser.go, lines 182-211). -/
def PState.processOSC (co : Collab) (p : PState) (endIdx : Int) : PState :=
  let p := { p with mode := PMode.normal }
  let payload := (p.buffer.drop p.instructionStartedAt.toNat).take
      (endIdx - p.instructionStartedAt).toNat
  match co.parseElementSequence payload with
  | (none, none) => p
  | (img?, err?) =>
    let ownLine : Bool := match img? with
      | none => true
      | some i => i.elementType != ELEMENT_LINK
    let s1 := if ownLine then p.screen.oscOwnLinePre else p.screen
    let s2 := s1.oscRender img? err?
    let s3 := if ownLine then s2.newLine else s2
    { p with screen := s3 }

/-- handleOperatingSystemCommand (parser.go, lines 167-179). -/
def PState.handleOSC (co : Collab) (p : PState) (char : Nat) : PState :=
  if char = 0x07 then p.processOSC co p.cursor
  else if char = 0x1B then { p with mode := .oscEsc }
  else p

/-- handleOSCEscape (parser.go, lines 151-162). -/
def PState.handleOSCEscape (co : Collab) (p : PState) (char : Nat) : PState :=
  if char = 0x5C then p.processOSC co (p.cursor - 1)
  else { p with mode := .osc }

/-- processApplicationProgramCommand (parser.go, lines 261-277). -/
def PState.processAPC (co : Collab) (p : PState) (endIdx : Int) : PState :=
  let p := { p with mode := PMode.normal }
  let payload := (p.buffer.drop p.instructionStartedAt.toNat).take
      (endIdx - p.instructionStartedAt).toNat
  match co.parseBuildkiteAPC payload with
  | (_, some e) =>
    { p with screen := (p.screen.appendMany apcErrPrefix).appendMany e }
  | (none, none) => p
  | (some data, none) =>
    { p with screen := p.screen.setLineMetadata bkNamespace data }

/-- handleApplicationProgramCommand (parser.go, lines 246-258). -/
def PState.handleAPC (co : Collab) (p : PState) (char : Nat) : PState :=
  if char = 0x07 then p.processAPC co p.cursor
  else if char = 0x1B then { p with mode := .apcEsc }
  else p

/-- handleAPCEscape (parser.go, lines 215-226). -/
def PState.handleAPCEscape (co : Collab) (p : PState) (char : Nat) : PState :=
  if char = 0x5C then p.processAPC co (p.cursor - 1)
  else { p with mode := .apc }

/-- One iteration of the parseToScreen loop (parser.go, lines 88-126):
decode the rune at the cursor, dispatch on the mode, then advance the
cursor by the rune length. -/
def PState.step (co : Collab) (p : PState) : PState :=
  let d := decodeRune (p.buffer.drop p.cursor.toNat)
  let p' :=
    match p.mode with
    | .escape => p.handleEscape d.1
    | .control => p.handleControlSequence d.1
    | .osc => p.handleOSC co d.1
    | .oscEsc => p.handleOSCEscape co d.1
    | .charset => { p with mode := PMode.normal }
    | .apc => p.handleAPC co d.1
    | .apcEsc => p.handleAPCEscape co d.1
    | .normal => p.handleNormal d.1
  { p' with cursor := p'.cursor + (d.2 : Int) }

/-- The parseToScreen loop: run step while cursor < len(buffer). The fuel
only bounds the recursion; each byte position is visited at most twice (the
body of an aborted escape is re-read once in normal mode), so the fuel
chosen below always suffices. -/
def runLoop (co : Collab) : Nat → PState → PState
  | 0, p => p
  | Nat.succ fuel, p =>
    if p.cursor < (p.buffer.length : Int) then runLoop co fuel (p.step co) else p

/-- parseToScreen (parser.go, lines 81-141): append the input to the
residual buffer, run the loop, then drop the fully processed prefix,
shifting the offsets. -/
def PState.parseToScreen (co : Collab) (p : PState) (input : List Nat) : PState :=
  let p1 := { p with buffer := p.buffer ++ input }
  let p2 := runLoop co (2 * p1.buffer.length + 2) p1
  let done := if p2.mode = PMode.normal then p2.cursor else p2.escapeStartedAt
  { p2 with
    buffer := p2.buffer.drop done.toNat,
    cursor := p2.cursor - done,
    instructionStartedAt := p2.instructionStartedAt - done,
    escapeStartedAt := p2.escapeStartedAt - done }

/-- Screen.Write (screen file, lines 420-423): feed the parser, then return
n = len(input) and a nil error (modelled as none). -/
def PState.goWrite (co : Collab) (p : PState) (input : List Nat) :
    PState × Nat × Option (List Nat) :=
  (p.parseToScreen co input, input.length, none)

/-- NewScreen with no options (screen file, lines 84-102): 160x100 window,
normal mode, everything else zero. -/
def newScreen : PState :=
  { screen :=
      { x := 0, y := 0, screen := [], style := emptyStyle, urlBrush := [],
        maxLines := 0, maxColumns := 0, cols := 160, lines := 100,
        hasScrollOutFunc := false, scrollOutLog := [], linesScrolledOut := 0,
        cursorUpOOB := 0, cursorDownOOB := 0, cursorFwdOOB := 0,
        cursorBackOOB := 0 },
    buffer := [], mode := PMode.normal, cursor := 0, escapeStartedAt := 0,
    instructions := [], instructionStartedAt := 0, saveX := 0, saveY := 0 }

/-- SetSize (screen file, lines 105-117); none models a non-nil error. -/
def Screen.setSize (s : Screen) (cols lines : Int) : Option Screen :=
  if cols ≤ 0 ∨ lines ≤ 0 then none
  else if 0 < s.maxColumns ∧ s.maxColumns < cols then none
  else if 0 < s.maxLines ∧ s.maxLines < lines then none
  else some { s with cols := cols, lines := lines }

/-- WithMaxSize (screen file, lines 69-81): set the caps and clamp the
current window size into them; never errors. -/
def Screen.withMaxSize (s : Screen) (maxCols mLines : Int) : Screen :=
  let s1 := { s with maxColumns := maxCols, maxLines := mLines }
  let s2 := if 0 < maxCols then { s1 with cols := min s1.cols maxCols } else s1
  if 0 < mLines then { s2 with lines := min s2.lines mLines } else s2

/-- A collaborator stand-in for concrete runs: modelled from the spec, it
returns no element, no data and no error (nothing to render). The concrete
inputs below contain no OSC/APC payloads, so no run depends on it. -/
def defaultCollab : Collab :=
  { parseElementSequence := fun _ => (none, none),
    parseBuildkiteAPC := fun _ => (none, none) }

/-- The glyphs of the whole screen buffer, line by line. -/
def screenBlobs (p : PState) : List (List Nat) :=
  p.screen.screen.map (fun l => l.nodes.map (fun n => n.blob))

/-! ### Helper lemmas -/

theorem goMod_nonneg (a b : Int) (ha : 0 ≤ a) : 0 ≤ goMod a b :=
  Int.tmod_nonneg b ha

theorem goMod_lt (a b : Int) (hb : 0 < b) : goMod a b < b :=
  Int.tmod_lt_of_pos a hb

theorem getD_mapIdx {α : Type} (f : Nat → α → α) (l : List α) (i : Nat) (d : α)
    (h : i < l.length) : (l.mapIdx f).getD i d = f i (l.getD i d) := by
  have h' : i < (l.mapIdx f).length := by simpa using h
  rw [List.getD_eq_get _ _ h', List.getD_eq_get _ _ h, List.get_mapIdx]

/-- Dispatch of applyEscape on a ?-prefixed first parameter. -/
theorem applyEscape_private (s : Screen) (code : Nat) (insts : List (List Nat))
    (hq : (instGet insts 0).head? = some 0x3F) :
    s.applyEscape code insts = s := by
  rw [Screen.applyEscape.eq_def, if_pos hq]

/-- Dispatch of applyEscape on code A. -/
theorem applyEscape_A (s : Screen) (insts : List (List Nat))
    (hq : ¬ (instGet insts 0).head? = some 0x3F) :
    s.applyEscape 0x41 insts = s.up (instGet insts 0) := by
  rw [Screen.applyEscape.eq_def, if_neg hq]; rfl

/-- Dispatch of applyEscape on code B. -/
theorem applyEscape_B (s : Screen) (insts : List (List Nat))
    (hq : ¬ (instGet insts 0).head? = some 0x3F) :
    s.applyEscape 0x42 insts = s.down (instGet insts 0) := by
  rw [Screen.applyEscape.eq_def, if_neg hq]; rfl

/-- Dispatch of applyEscape on code C. -/
theorem applyEscape_C (s : Screen) (insts : List (List Nat))
    (hq : ¬ (instGet insts 0).head? = some 0x3F) :
    s.applyEscape 0x43 insts = s.forward (instGet insts 0) := by
  rw [Screen.applyEscape.eq_def, if_neg hq]; rfl

/-- Dispatch of applyEscape on code D. -/
theorem applyEscape_D (s : Screen) (insts : List (List Nat))
    (hq : ¬ (instGet insts 0).head? = some 0x3F) :
    s.applyEscape 0x44 insts = s.backward (instGet insts 0) := by
  rw [Screen.applyEscape.eq_def, if_neg hq]; rfl

/-- Dispatch of applyEscape on code E. -/
theorem applyEscape_E (s : Screen) (insts : List (List Nat))
    (hq : ¬ (instGet insts 0).head? = some 0x3F) :
    s.applyEscape 0x45 insts = Screen.down { s with x := 0 } (instGet insts 0) := by
  rw [Screen.applyEscape.eq_def, if_neg hq]; rfl

/-- Dispatch of applyEscape on code F. -/
theorem applyEscape_F (s : Screen) (insts : List (List Nat))
    (hq : ¬ (instGet insts 0).head? = some 0x3F) :
    s.applyEscape 0x46 insts = Screen.up { s with x := 0 } (instGet insts 0) := by
  rw [Screen.applyEscape.eq_def, if_neg hq]; rfl

/-- Dispatch of applyEscape on code G. -/
theorem applyEscape_G (s : Screen) (insts : List (List Nat))
    (hq : ¬ (instGet insts 0).head? = some 0x3F) :
    s.applyEscape 0x47 insts =
      { s with x := min (max (ansiInt (instGet insts 0) - 1) 0) (s.cols - 1) } := by
  rw [Screen.applyEscape.eq_def, if_neg hq]; rfl

/-- Dispatch of applyEscape on code H. -/
theorem applyEscape_H (s : Screen) (insts : List (List Nat))
    (hq : ¬ (instGet insts 0).head? = some 0x3F) :
    s.applyEscape 0x48 insts =
      { s with
        y := min (max (ansiInt (instGet insts 0) - 1) 0) (s.lines - 1),
        x := min (max (ansiInt (instGet insts 1) - 1) 0) (s.cols - 1) } := by
  rw [Screen.applyEscape.eq_def, if_neg hq]; rfl

/-- Dispatch of applyEscape on code J. -/
theorem applyEscape_J (s : Screen) (insts : List (List Nat))
    (hq : ¬ (instGet insts 0).head? = some 0x3F) :
    s.applyEscape 0x4A insts = s.applyJ (instGet insts 0) := by
  rw [Screen.applyEscape.eq_def, if_neg hq]; rfl

/-- Dispatch of applyEscape on code K. -/
theorem applyEscape_K (s : Screen) (insts : List (List Nat))
    (hq : ¬ (instGet insts 0).head? = some 0x3F) :
    s.applyEscape 0x4B insts = s.applyK (instGet insts 0) := by
  rw [Screen.applyEscape.eq_def, if_neg hq]; rfl

/-- Dispatch of applyEscape on code M. -/
theorem applyEscape_M (s : Screen) (insts : List (List Nat))
    (hq : ¬ (instGet insts 0).head? = some 0x3F) :
    s.applyEscape 0x4D insts = s.color insts := by
  rw [Screen.applyEscape.eq_def, if_neg hq]; rfl

/-- Dispatch of applyEscape on code Q (no case matches: no-op). -/
theorem applyEscape_Q (s : Screen) (insts : List (List Nat))
    (hq : ¬ (instGet insts 0).head? = some 0x3F) :
    s.applyEscape 0x51 insts = s := by
  rw [Screen.applyEscape.eq_def, if_neg hq]; rfl

/-! ### Claim C1 -/

/-- C1 (code bug): the claim says Write(p) then Write(q) always equals
Write(p ++ q), in particular across a split multi-byte UTF-8 codepoint.
The code decodes a truncated trailing codepoint as U+FFFD at once instead
of leaving it in the residual buffer, so splitting the two bytes of é
yields two replacement-character cells while the unsplit write yields one
é cell, and the resulting screens differ. -/
theorem c1_split_write_codepoint_bug :
    screenBlobs ((newScreen.goWrite defaultCollab [0xC3]).1.goWrite
        defaultCollab [0xA9]).1 = [[0xFFFD, 0xFFFD]]
    ∧ screenBlobs (newScreen.goWrite defaultCollab [0xC3, 0xA9]).1 = [[0xE9]]
    ∧ ((newScreen.goWrite defaultCollab [0xC3]).1.goWrite defaultCollab [0xA9]).1.screen ≠
      (newScreen.goWrite defaultCollab [0xC3, 0xA9]).1.screen := by
  refine ⟨by decide, by decide, by decide⟩

/-! ### Claim C2 -/

/-- C2 (code bug): the claim (and the spec scenario) expects
"abcdef\x1b[1;3Hx" to render "abxdef" with the cursor at (3,0). The
control-sequence dispatcher treats an uppercased final H as Set Mode and
silently drops the sequence, so the fully implemented Cursor Position case
of applyEscape is never reached: the run renders "abcdefx" with the cursor
at (7,0), while calling applyEscape with final H directly would have moved
the cursor to (2,0) as the claim describes. -/
theorem c2_cursor_position_ignored_bug :
    (newScreen.goWrite defaultCollab
        [0x61, 0x62, 0x63, 0x64, 0x65, 0x66, 0x1B, 0x5B, 0x31, 0x3B, 0x33, 0x48, 0x78]).1.screen.asPlainText
      = [0x61, 0x62, 0x63, 0x64, 0x65, 0x66, 0x78]
    ∧ (newScreen.goWrite defaultCollab
        [0x61, 0x62, 0x63, 0x64, 0x65, 0x66, 0x1B, 0x5B, 0x31, 0x3B, 0x33, 0x48, 0x78]).1.screen.x = 7
    ∧ (newScreen.goWrite defaultCollab
        [0x61, 0x62, 0x63, 0x64, 0x65, 0x66, 0x1B, 0x5B, 0x31, 0x3B, 0x33, 0x48, 0x78]).1.screen.y = 0
    ∧ ((newScreen.goWrite defaultCollab [0x61, 0x62, 0x63, 0x64, 0x65, 0x66]).1.screen.applyEscape
        0x48 [[0x31], [0x33]]).x = 2
    ∧ ((newScreen.goWrite defaultCollab [0x61, 0x62, 0x63, 0x64, 0x65, 0x66]).1.screen.applyEscape
        0x48 [[0x31], [0x33]]).y = 0 := by
  refine ⟨by decide, by decide, by decide, by decide, by decide⟩

/-! ### Claim C4 -/

/-- A concrete three-cell line for the K1 boundary case. -/
def c4line : ScreenLine :=
  { emptyScreenLine with nodes :=
      [{ blob := 0x61, style := emptyStyle }, { blob := 0x62, style := emptyStyle },
       { blob := 0x63, style := emptyStyle }] }

/-- C4 counterexample: on a line of three cells with the cursor at column
2, CSI 1 K (clear from start of line through the cursor) truncates the
whole line to length 0 instead of preserving the length, refuting the
claim that the length of the cell sequence is preserved. -/
theorem c4_counterexample :
    c4line.nodes.length = 3
    ∧ (c4line.clear screenStartOfLine 2).nodes.length = 0 := by
  refine ⟨by decide, by decide⟩

/-- C4 amended: Erase in Line with parameter 1 clears cells 0..x to empty
cells and preserves the line length provided x is strictly below the last
cell index; when x reaches or exceeds the last index the code instead
truncates the whole line to length 0. -/
theorem c4_erase_line_amended (l : ScreenLine) (x : Int) (hx : 0 ≤ x) :
    (x < (l.nodes.length : Int) - 1 →
      (l.clear screenStartOfLine x).nodes.length = l.nodes.length
      ∧ (∀ i : Nat, (i : Int) ≤ x →
          (l.clear screenStartOfLine x).nodes.getD i emptyNode = emptyNode)
      ∧ (∀ i : Nat, x < (i : Int) →
          (l.clear screenStartOfLine x).nodes.getD i emptyNode = l.nodes.getD i emptyNode))
    ∧ ((l.nodes.length : Int) - 1 ≤ x → (l.clear screenStartOfLine x).nodes = []) := by
  have e0 : (if (0 : Int) < 0 then (0 : Int) else 0) = 0 := rfl
  constructor
  · intro hlt
    have hres : (l.clear screenStartOfLine x).nodes =
        l.nodes.mapIdx (fun i n =>
          if (0 : Int) ≤ (i : Int) ∧ (i : Int) ≤ x then emptyNode else n) := by
      simp only [ScreenLine.clear, screenStartOfLine, e0]
      rw [if_neg (by omega : ¬ x < (0 : Int)),
        if_neg (by omega : ¬ (l.nodes.length : Int) ≤ 0),
        if_neg (by omega : ¬ (l.nodes.length : Int) - 1 ≤ x)]
    refine ⟨by simp [hres], ?_, ?_⟩
    · intro i hi
      have hilen : i < l.nodes.length := by omega
      rw [hres, getD_mapIdx _ _ _ _ hilen]
      have hc : (0 : Int) ≤ (i : Int) ∧ (i : Int) ≤ x := ⟨by positivity, hi⟩
      simp [hc]
    · intro i hi
      rw [hres]
      by_cases hilen : i < l.nodes.length
      · rw [getD_mapIdx _ _ _ _ hilen]
        have hc : ¬ ((i : Int) ≤ x) := by omega
        simp [hc]
      · rw [List.getD_eq_default, List.getD_eq_default]
        · omega
        · simpa using hilen
  · intro hge
    by_cases h0 : (l.nodes.length : Int) ≤ 0
    · have hnil : l.nodes = [] := by
        have : l.nodes.length = 0 := by omega
        exact List.length_eq_zero.mp this
      simp [ScreenLine.clear, screenStartOfLine, hnil]
    · simp only [ScreenLine.clear, screenStartOfLine, e0]
      rw [if_neg (by omega : ¬ x < (0 : Int)), if_neg h0, if_pos hge]
      simp

/-- C4 amended, witness: the amended theorem applied to a concrete line
and cursor column. -/
theorem c4_erase_line_amended_witness :
    (0 : Int) ≤ 1
    ∧ ((1 : Int) < (c4line.nodes.length : Int) - 1 →
      (c4line.clear screenStartOfLine 1).nodes.length = c4line.nodes.length
      ∧ (∀ i : Nat, (i : Int) ≤ 1 →
          (c4line.clear screenStartOfLine 1).nodes.getD i emptyNode = emptyNode)
      ∧ (∀ i : Nat, (1 : Int) < (i : Int) →
          (c4line.clear screenStartOfLine 1).nodes.getD i emptyNode = c4line.nodes.getD i emptyNode))
    ∧ (((c4line.nodes.length : Int) - 1 ≤ 1 → (c4line.clear screenStartOfLine 1).nodes = [])) :=
  ⟨by decide, (c4_erase_line_amended c4line 1 (by decide)).1,
    (c4_erase_line_amended c4line 1 (by decide)).2⟩

/-! ### Claim C5 -/

/-- C5 counterexample: after ESC, the two-byte character é is unrecognized
and aborts the escape, but the rewound cursor is advanced by the full rune
length, skipping the first byte of é; the aborted character is re-read as a
replacement character, not as the literal é the claim promises. -/
theorem c5_counterexample :
    screenBlobs (newScreen.goWrite defaultCollab [0x1B, 0xC3, 0xA9]).1 = [[0xFFFD]]
    ∧ ([[0xFFFD]] : List (List Nat)) ≠ [[0xE9]] := by
  refine ⟨by decide, by decide⟩

/-- C5 amended: when the character after ESC is unrecognized, or a byte
inside a CSI sequence is neither a parameter byte nor ';' nor a recognized
final, one parser step returns to Normal mode, leaves the screen and buffer
untouched, and resumes at escapeStartedAt plus the aborting character's
byte length, so the ESC introducer is consumed. After an abort directly
after ESC, a single-byte aborting character (not an interpreted C0 control)
is re-read at its own position and appended as literal text; a multi-byte
one has its leading bytes skipped (the counterexample shows ESC e-acute
renders a replacement character). After an abort inside a CSI the resume
point lies within the sequence body instead, so the aborting character can
be re-read in full: ESC [ e-acute renders the literal e-acute. -/
theorem c5_malformed_escape_amended (co : Collab) (p : PState) (c k : Nat)
    (hd : decodeRune (p.buffer.drop p.cursor.toNat) = (c, k)) :
    (p.mode = PMode.escape →
      c ∉ ([0x5B, 0x5D, 0x29, 0x28, 0x5F, 0x4D, 0x37, 0x38] : List Nat) →
      (p.step co).mode = PMode.normal
      ∧ (p.step co).cursor = p.escapeStartedAt + (k : Int)
      ∧ (p.step co).screen = p.screen
      ∧ (p.step co).buffer = p.buffer
      ∧ (k = 1 → p.cursor = p.escapeStartedAt + 1 →
          c ≠ 0x0A → c ≠ 0x0D → c ≠ 0x08 → c ≠ 0x1B →
          ((p.step co).step co).screen = p.screen.append c))
    ∧ (p.mode = PMode.control →
      ¬ (toUpper c = 0x3F ∨ (0x30 ≤ toUpper c ∧ toUpper c ≤ 0x39)) →
      toUpper c ≠ 0x3B →
      toUpper c ∉ ([0x41, 0x42, 0x43, 0x44, 0x45, 0x46, 0x47, 0x4A, 0x4B,
        0x4D, 0x51] : List Nat) →
      ¬ (toUpper c = 0x48 ∨ toUpper c = 0x4C) →
      (p.step co).mode = PMode.normal
      ∧ (p.step co).cursor = p.escapeStartedAt + (k : Int)
      ∧ (p.step co).screen = p.screen
      ∧ (p.step co).buffer = p.buffer)
    ∧ screenBlobs (newScreen.goWrite defaultCollab [0x1B, 0x5B, 0xC3, 0xA9]).1
        = [[0xE9]] := by
  refine ⟨?_, ?_, by decide⟩
  · intro hm hc
    simp only [List.mem_cons, List.not_mem_nil, or_false, not_or] at hc
    obtain ⟨h1, h2, h3, h4, h5, h6, h7, h8⟩ := hc
    have hstep : p.step co =
        { p with cursor := p.escapeStartedAt + (k : Int), mode := PMode.normal } := by
      simp [PState.step, hm, hd, PState.handleEscape, h1, h2, h3, h4, h5, h6,
        h7, h8]
    refine ⟨by rw [hstep], by rw [hstep], by rw [hstep], by rw [hstep], ?_⟩
    intro hk hcur h9 h10 h11 h12
    subst hk
    rw [hstep]
    have hcur2 : p.escapeStartedAt + ((1 : Nat) : Int) = p.cursor := by
      rw [hcur]; push_cast; ring
    simp only [PState.step, hcur2, hd, PState.handleNormal, h9, h10, h11, h12,
      if_false]
  · intro hm hc1 hc2 hc3 hc4
    have hstep : p.step co =
        { p with cursor := p.escapeStartedAt + (k : Int), mode := PMode.normal } := by
      simp [PState.step, hm, hd, PState.handleControlSequence, hc1, hc2, hc3,
        hc4]
    exact ⟨by rw [hstep], by rw [hstep], by rw [hstep], by rw [hstep]⟩

/-- Concrete state for the C5 witness: a fresh screen whose parser has
just consumed an ESC and sits before an unrecognized single-byte z. -/
def c5state : PState :=
  { newScreen with
    buffer := [0x1B, 0x7A]
    cursor := 1
    escapeStartedAt := 0
    mode := PMode.escape }

/-- C5 amended, witness: the amended theorem applied to the concrete
aborted escape ESC z. -/
theorem c5_malformed_escape_amended_witness :
    (c5state.mode = PMode.escape →
      (0x7A : Nat) ∉ ([0x5B, 0x5D, 0x29, 0x28, 0x5F, 0x4D, 0x37, 0x38] : List Nat) →
      (c5state.step defaultCollab).mode = PMode.normal
      ∧ (c5state.step defaultCollab).cursor = c5state.escapeStartedAt + ((1 : Nat) : Int)
      ∧ (c5state.step defaultCollab).screen = c5state.screen
      ∧ (c5state.step defaultCollab).buffer = c5state.buffer
      ∧ ((1 : Nat) = 1 → c5state.cursor = c5state.escapeStartedAt + 1 →
          (0x7A : Nat) ≠ 0x0A → (0x7A : Nat) ≠ 0x0D → (0x7A : Nat) ≠ 0x08 →
          (0x7A : Nat) ≠ 0x1B →
          ((c5state.step defaultCollab).step defaultCollab).screen
            = c5state.screen.append 0x7A))
    ∧ (c5state.mode = PMode.control →
      ¬ (toUpper 0x7A = 0x3F ∨ (0x30 ≤ toUpper 0x7A ∧ toUpper 0x7A ≤ 0x39)) →
      toUpper 0x7A ≠ 0x3B →
      toUpper 0x7A ∉ ([0x41, 0x42, 0x43, 0x44, 0x45, 0x46, 0x47, 0x4A, 0x4B,
        0x4D, 0x51] : List Nat) →
      ¬ (toUpper 0x7A = 0x48 ∨ toUpper 0x7A = 0x4C) →
      (c5state.step defaultCollab).mode = PMode.normal
      ∧ (c5state.step defaultCollab).cursor = c5state.escapeStartedAt + ((1 : Nat) : Int)
      ∧ (c5state.step defaultCollab).screen = c5state.screen
      ∧ (c5state.step defaultCollab).buffer = c5state.buffer)
    ∧ screenBlobs (newScreen.goWrite defaultCollab [0x1B, 0x5B, 0xC3, 0xA9]).1
        = [[0xE9]] :=
  c5_malformed_escape_amended defaultCollab c5state 0x7A 1 (by decide)

/-! ### Claim C6 -/

/-- Concrete state for the C6 counterexample: a 2x2 window. -/
def c6state : PState :=
  { newScreen with screen := (newScreen.screen.setSize 2 2).getD newScreen.screen }

/-- C6 counterexample: on a 2-column window, after writing "aaa" the
cursor column is 3 (content writes are unclamped); CSI 1 D then moves it
to 2 without any clamp, so after the motion command the cursor does not
satisfy x < cols, refuting the claimed bound. -/
theorem c6_counterexample :
    (c6state.goWrite defaultCollab [0x61, 0x61, 0x61, 0x1B, 0x5B, 0x31, 0x44]).1.screen.x = 2
    ∧ (c6state.goWrite defaultCollab [0x61, 0x61, 0x61, 0x1B, 0x5B, 0x31, 0x44]).1.screen.cols = 2
    ∧ ¬ ((c6state.goWrite defaultCollab [0x61, 0x61, 0x61, 0x1B, 0x5B, 0x31, 0x44]).1.screen.x
        < (c6state.goWrite defaultCollab [0x61, 0x61, 0x61, 0x1B, 0x5B, 0x31, 0x44]).1.screen.cols) := by
  refine ⟨by decide, by decide, by decide⟩

/-- C6 amended: a missing, empty or malformed parameter is 1; from a state
with nonnegative cursor, positive window and nonnegative count: A and B
set x to x mod cols (so 0 ≤ x < cols) and keep y nonnegative, B clamps y
below lines (A preserves y < lines only when it already held), C yields
0 ≤ x < cols, D keeps x nonnegative but only stays below cols when it
started there; each command increments exactly its own counter, exactly
once, precisely when its clamp fires, and leaves the other three counters
unchanged. -/
theorem c6_cursor_motion_amended (s : Screen) (i : List Nat)
    (hx : 0 ≤ s.x) (hy : 0 ≤ s.y) (hc : 0 < s.cols) (hl : 0 < s.lines)
    (hn : 0 ≤ ansiInt i) :
    (ansiInt [] = 1)
    ∧ (∀ j : List Nat, atoi j = none → ansiInt j = 1)
    ∧ ((s.up i).x = goMod s.x s.cols ∧ 0 ≤ (s.up i).x ∧ (s.up i).x < s.cols
      ∧ 0 ≤ (s.up i).y ∧ (s.y < s.lines → (s.up i).y < s.lines)
      ∧ (s.up i).cursorUpOOB =
          (if s.y - ansiInt i < 0 then s.cursorUpOOB + 1 else s.cursorUpOOB)
      ∧ (s.up i).cursorDownOOB = s.cursorDownOOB
      ∧ (s.up i).cursorFwdOOB = s.cursorFwdOOB
      ∧ (s.up i).cursorBackOOB = s.cursorBackOOB)
    ∧ ((s.down i).x = goMod s.x s.cols ∧ 0 ≤ (s.down i).x ∧ (s.down i).x < s.cols
      ∧ 0 ≤ (s.down i).y ∧ (s.down i).y < s.lines
      ∧ (s.down i).cursorDownOOB =
          (if s.y + ansiInt i ≥ s.lines then s.cursorDownOOB + 1 else s.cursorDownOOB)
      ∧ (s.down i).cursorUpOOB = s.cursorUpOOB
      ∧ (s.down i).cursorFwdOOB = s.cursorFwdOOB
      ∧ (s.down i).cursorBackOOB = s.cursorBackOOB)
    ∧ (0 ≤ (s.forward i).x ∧ (s.forward i).x < s.cols ∧ (s.forward i).y = s.y
      ∧ (s.forward i).cursorFwdOOB =
          (if s.x + ansiInt i ≥ s.cols then s.cursorFwdOOB + 1 else s.cursorFwdOOB)
      ∧ (s.forward i).cursorUpOOB = s.cursorUpOOB
      ∧ (s.forward i).cursorDownOOB = s.cursorDownOOB
      ∧ (s.forward i).cursorBackOOB = s.cursorBackOOB)
    ∧ (0 ≤ (s.backward i).x ∧ (s.x < s.cols → (s.backward i).x < s.cols)
      ∧ (s.backward i).y = s.y
      ∧ (s.backward i).cursorBackOOB =
          (if s.x - ansiInt i < 0 then s.cursorBackOOB + 1 else s.cursorBackOOB)
      ∧ (s.backward i).cursorUpOOB = s.cursorUpOOB
      ∧ (s.backward i).cursorDownOOB = s.cursorDownOOB
      ∧ (s.backward i).cursorFwdOOB = s.cursorFwdOOB) := by
  have hmod1 : 0 ≤ goMod s.x s.cols := goMod_nonneg s.x s.cols hx
  have hmod2 : goMod s.x s.cols < s.cols := goMod_lt s.x s.cols hc
  refine ⟨by simp [ansiInt], ?_, ?_, ?_, ?_, ?_⟩
  · intro j hj
    by_cases h : j = []
    · simp [ansiInt, h]
    · simp [ansiInt, h, hj]
  · refine ⟨by simp [Screen.up], ?_, ?_, ?_, ?_, ?_, ?_, ?_, ?_⟩ <;>
      simp only [Screen.up] <;> first
        | exact hmod1
        | exact hmod2
        | (intro h; split <;> omega)
        | (split <;> omega)
        | rfl
        | (split <;> rfl)
  · refine ⟨by simp [Screen.down], ?_, ?_, ?_, ?_, ?_, ?_, ?_, ?_⟩ <;>
      simp only [Screen.down] <;> first
        | exact hmod1
        | exact hmod2
        | (split <;> omega)
        | rfl
        | (split <;> rfl)
  · refine ⟨?_, ?_, ?_, ?_, ?_, ?_, ?_⟩ <;>
      simp only [Screen.forward] <;> first
        | (split <;> omega)
        | rfl
        | (split <;> rfl)
  · refine ⟨?_, ?_, ?_, ?_, ?_, ?_, ?_⟩ <;>
      simp only [Screen.backward] <;> first
        | (intro h; split <;> omega)
        | (split <;> omega)
        | rfl
        | (split <;> rfl)

/-- C6 amended, witness: the amended theorem applied to a fresh 160x100
screen and the parameter string "5". -/
theorem c6_cursor_motion_amended_witness :
    (0 : Int) ≤ newScreen.screen.x ∧ (0 : Int) ≤ newScreen.screen.y
    ∧ (0 : Int) < newScreen.screen.cols ∧ (0 : Int) < newScreen.screen.lines
    ∧ 0 ≤ ansiInt [0x35]
    ∧ ansiInt [] = 1 := by
  refine ⟨by decide, by decide, by decide, by decide, by decide,
    (c6_cursor_motion_amended newScreen.screen [0x35] (by decide) (by decide)
      (by decide) (by decide) (by decide)).1⟩

/-! ### Claim C7 -/

/-- C7: Erase in Display with parameter 2 truncates the buffer to
buffer[:top()] and parameter 3 empties the buffer entirely; both reset the
cursor to the origin. -/
theorem c7_erase_display_j2_j3 (s : Screen) :
    (s.applyEscape 0x4A [[0x32]]).screen = s.screen.take s.top.toNat
    ∧ (s.applyEscape 0x4A [[0x32]]).x = 0 ∧ (s.applyEscape 0x4A [[0x32]]).y = 0
    ∧ (s.applyEscape 0x4A [[0x33]]).screen = []
    ∧ (s.applyEscape 0x4A [[0x33]]).x = 0 ∧ (s.applyEscape 0x4A [[0x33]]).y = 0 := by
  have hJ2 : s.applyEscape 0x4A [[0x32]] =
      { s with screen := s.screen.take s.top.toNat, x := 0, y := 0 } := by
    rw [applyEscape_J s [[0x32]] (by decide)]
    simp only [Screen.applyJ]
    rw [if_neg (by decide), if_neg (by decide), if_pos (by decide)]
  have hJ3 : s.applyEscape 0x4A [[0x33]] = { s with screen := [], x := 0, y := 0 } := by
    rw [applyEscape_J s [[0x33]] (by decide)]
    simp only [Screen.applyJ]
    rw [if_neg (by decide), if_neg (by decide), if_neg (by decide), if_pos (by decide)]
  rw [hJ2, hJ3]
  exact ⟨rfl, rfl, rfl, rfl, rfl, rfl⟩

/-! ### Claim C8 -/

/-- C8: Screen.Write always returns n equal to the input length and a nil
error, for every starting state and input. -/
theorem c8_write_total (co : Collab) (p : PState) (input : List Nat) :
    (p.goWrite co input).2.1 = input.length ∧ (p.goWrite co input).2.2 = none :=
  ⟨rfl, rfl⟩

/-! ### Claim C10 -/

/-- C10 counterexample: writing "a" and five newlines leaves one buffered
line with the cursor below all allocated content (currentLine is nil), yet
CSI 2 J then empties the buffer, so erase operations issued with no line
at the cursor do not all leave the buffer unchanged. -/
theorem c10_counterexample :
    (newScreen.goWrite defaultCollab [0x61, 0x0A, 0x0A, 0x0A, 0x0A, 0x0A]).1.screen.currentLineIdx? = none
    ∧ screenBlobs (newScreen.goWrite defaultCollab [0x61, 0x0A, 0x0A, 0x0A, 0x0A, 0x0A]).1 = [[0x61]]
    ∧ screenBlobs ((newScreen.goWrite defaultCollab
        [0x61, 0x0A, 0x0A, 0x0A, 0x0A, 0x0A]).1.goWrite defaultCollab
        [0x1B, 0x5B, 0x32, 0x4A]).1 = [] := by
  refine ⟨by decide, by decide, by decide⟩

/-- C10 amended: when no line exists at the cursor, Erase in Line with any
parameter and Erase in Display with parameter 0 (or none) are complete
no-ops: the nil currentLine makes clear and clearAll do nothing and the J0
branch's bounds check prevents the truncation. On an empty buffer every J
variant also leaves the buffer empty. J1, J2 and J3 on a nonempty buffer
with the cursor below the content do mutate the buffer (see the
counterexample), so the claim holds only in this restricted form. -/
theorem c10_erase_no_line_amended (s : Screen) (h : s.currentLineIdx? = none) :
    (∀ insts : List (List Nat), s.applyEscape 0x4B insts = s)
    ∧ (s.applyEscape 0x4A [] = s)
    ∧ (s.applyEscape 0x4A [[0x30]] = s)
    ∧ (s.screen = [] → ∀ insts : List (List Nat), (s.applyEscape 0x4A insts).screen = []) := by
  have hclr : ∀ xs xe : Int, s.clearCurrentLine xs xe = s := by
    intro xs xe
    simp only [Screen.clearCurrentLine, h]
  have hclrall : s.clearAllCurrentLine = s := by
    simp only [Screen.clearAllCurrentLine, h]
  have hrange : s.top + s.y < 0 ∨ (s.screen.length : Int) ≤ s.top + s.y := by
    by_contra hcon
    simp only [Screen.currentLineIdx?] at h
    rw [if_neg hcon] at h
    exact Option.some_ne_none _ h
  refine ⟨?_, ?_, ?_, ?_⟩
  · intro insts
    by_cases hq : (instGet insts 0).head? = some 0x3F
    · exact applyEscape_private s 0x4B insts hq
    · rw [applyEscape_K s insts hq]
      simp only [Screen.applyK]
      split_ifs <;> first | exact hclr _ _ | exact hclrall | rfl
  · rw [applyEscape_J s [] (by decide)]
    simp only [Screen.applyJ]
    rw [if_pos (Or.inr (by decide)), hclr, if_pos hrange]
  · rw [applyEscape_J s [[0x30]] (by decide)]
    simp only [Screen.applyJ]
    rw [if_pos (Or.inl (by decide)), hclr, if_pos hrange]
  · intro hscr insts
    by_cases hq : (instGet insts 0).head? = some 0x3F
    · rw [applyEscape_private s 0x4A insts hq, hscr]
    · rw [applyEscape_J s insts hq]
      simp only [Screen.applyJ]
      split_ifs with h1 h2 <;>
        first
          | (rw [hclr]; exact hscr)
          | (rw [hclr] at *; simp_all [clearAllRange])
          | (simp [hclr, hscr, clearAllRange])
          | rfl
          | exact hscr

/-- C10 amended, witness: the amended theorem applied to the empty fresh
screen, where currentLine is nil. -/
theorem c10_erase_no_line_amended_witness :
    newScreen.screen.currentLineIdx? = none
    ∧ (newScreen.screen.applyEscape 0x4B [[0x31]] = newScreen.screen)
    ∧ (newScreen.screen.applyEscape 0x4A [] = newScreen.screen)
    ∧ (newScreen.screen.applyEscape 0x4A [[0x33]]).screen = [] :=
  ⟨by decide, (c10_erase_no_line_amended newScreen.screen (by decide)).1 [[0x31]],
    (c10_erase_no_line_amended newScreen.screen (by decide)).2.1,
    (c10_erase_no_line_amended newScreen.screen (by decide)).2.2.2 (by decide) [[0x33]]⟩

/-! ### Claim C3: scroll-out accounting and the maxLines cap -/

/-- The buffer cap: when maxLines is positive, the buffer never exceeds it. -/
def CapOK (s : Screen) : Prop :=
  0 < s.maxLines → (s.screen.length : Int) ≤ s.maxLines

/-- Scroll-out accounting between two screen states: the cap and callback
flag are stable, the callback log only grows, and when the callback is set
the eviction counter advances in lockstep with the log. -/
def C3Inv (s s' : Screen) : Prop :=
  (s'.maxLines = s.maxLines ∧ s'.hasScrollOutFunc = s.hasScrollOutFunc
    ∧ ∃ ev : List (List Nat), s'.scrollOutLog = s.scrollOutLog ++ ev
        ∧ (s.hasScrollOutFunc = true →
            s'.linesScrolledOut = s.linesScrolledOut + (ev.length : Int)))
  ∧ (CapOK s → CapOK s')

theorem c3_refl (s : Screen) : C3Inv s s :=
  ⟨⟨rfl, rfl, [], by simp, fun _ => by simp⟩, fun h => h⟩

theorem c3_trans {a b c : Screen} (h1 : C3Inv a b) (h2 : C3Inv b c) : C3Inv a c := by
  obtain ⟨⟨hm1, hf1, ev1, hl1, hc1⟩, hcap1⟩ := h1
  obtain ⟨⟨hm2, hf2, ev2, hl2, hc2⟩, hcap2⟩ := h2
  refine ⟨⟨hm2.trans hm1, hf2.trans hf1, ev1 ++ ev2, ?_, ?_⟩, fun h => hcap2 (hcap1 h)⟩
  · rw [hl2, hl1, List.append_assoc]
  · intro hflag
    rw [hc2 (hf1.trans hflag), hc1 hflag]
    simp only [List.length_append, Nat.cast_add]
    ring

theorem c3_simple (s s' : Screen)
    (hm : s'.maxLines = s.maxLines) (hf : s'.hasScrollOutFunc = s.hasScrollOutFunc)
    (hl : s'.scrollOutLog = s.scrollOutLog) (hc : s'.linesScrolledOut = s.linesScrolledOut)
    (hlen : s'.screen.length ≤ s.screen.length) : C3Inv s s' := by
  refine ⟨⟨hm, hf, [], by simp [hl], fun _ => by simp [hc]⟩, ?_⟩
  intro hcap hpos
  rw [hm] at hpos
  have := hcap hpos
  rw [hm]
  omega

theorem c3_clfwStep (s : Screen) : C3Inv s s.clfwStep := by
  unfold Screen.clfwStep
  dsimp only
  split
  · rename_i hguard
    split <;>
      refine ⟨⟨rfl, rfl, [], by simp, fun _ => by simp⟩, fun _ hpos => ?_⟩ <;>
      · simp only [List.length_append, List.length_cons, List.length_nil] at hpos ⊢
        push_cast
        omega
  · rename_i hguard
    match hscr : s.screen with
    | [] => exact c3_refl s
    | l0 :: rest =>
      dsimp only
      by_cases hflag : s.hasScrollOutFunc = true
      · refine ⟨⟨by simp [hflag], by simp [hflag], [l0.asHTML], by simp [hflag],
          fun _ => by simp [hflag]⟩, fun hcap hpos => ?_⟩
        have hlen := hcap (by simpa [hflag] using hpos)
        rw [hscr] at hlen
        simp only [List.length_cons] at hlen
        simp only [hflag, eq_self_iff_true, if_true, ite_true, List.length_append,
          List.length_cons, List.length_nil]
        push_cast at hlen ⊢
        omega
      · refine ⟨⟨by simp [hflag], by simp [hflag], [], by simp [hflag],
          fun hcon => by rw [hcon] at hflag; exact absurd rfl hflag⟩,
          fun hcap hpos => ?_⟩
        have hlen := hcap (by simpa [hflag] using hpos)
        rw [hscr] at hlen
        simp only [List.length_cons] at hlen
        simp only [hflag, if_false, ite_false, List.length_append,
          List.length_cons, List.length_nil]
        push_cast at hlen ⊢
        omega

theorem c3_clfwLoop (fuel : Nat) (s : Screen) : C3Inv s (clfwLoop fuel s) := by
  induction fuel generalizing s with
  | zero => exact c3_refl s
  | succ n ih =>
    unfold clfwLoop
    split
    · exact c3_trans (c3_clfwStep s) (ih _)
    · exact c3_refl s

theorem c3_clfw (s : Screen) : C3Inv s s.currentLineForWriting.1 := by
  unfold Screen.currentLineForWriting
  have h1 := c3_clfwLoop s.clfwFuel s
  dsimp only
  rcases ho : (clfwLoop s.clfwFuel s).currentLineIdx? with _ | i
  · exact h1
  · exact c3_trans h1 (c3_simple _ _ rfl rfl rfl rfl (by simp))

theorem c3_write (s : Screen) (r : Nat) : C3Inv s (s.write r) := by
  have h1 := c3_clfw s
  unfold Screen.write
  rcases hc : s.currentLineForWriting with ⟨s1, oi⟩
  rw [hc] at h1
  rcases oi with _ | i
  · exact h1
  · dsimp only
    refine c3_trans h1 ?_
    split <;> exact c3_simple _ _ rfl rfl rfl rfl (by simp)

theorem c3_append (s : Screen) (r : Nat) : C3Inv s (s.append r) := by
  unfold Screen.append
  exact c3_trans (c3_write s r) (c3_simple _ _ rfl rfl rfl rfl (by simp))

theorem c3_appendMany (data : List Nat) (s : Screen) : C3Inv s (s.appendMany data) := by
  induction data generalizing s with
  | nil => exact c3_refl s
  | cons d rest ih =>
    have : s.appendMany (d :: rest) = (s.append d).appendMany rest := rfl
    rw [this]
    exact c3_trans (c3_append s d) (ih _)

theorem c3_appendElement (s : Screen) (e : element) : C3Inv s (s.appendElement e) := by
  have h1 := c3_clfw s
  unfold Screen.appendElement
  rcases hc : s.currentLineForWriting with ⟨s1, oi⟩
  rw [hc] at h1
  rcases oi with _ | i
  · exact h1
  · dsimp only
    exact c3_trans h1 (c3_simple _ _ rfl rfl rfl rfl (by simp))

theorem c3_setLineMetadata (s : Screen) (ns : List Nat)
    (data : List (List Nat × List Nat)) : C3Inv s (s.setLineMetadata ns data) := by
  have h1 := c3_clfw s
  unfold Screen.setLineMetadata
  rcases hc : s.currentLineForWriting with ⟨s1, oi⟩
  rw [hc] at h1
  rcases oi with _ | i
  · exact h1
  · dsimp only
    exact c3_trans h1 (c3_simple _ _ rfl rfl rfl rfl (by simp))

theorem c3_clearCurrentLine (s : Screen) (xs xe : Int) :
    C3Inv s (s.clearCurrentLine xs xe) := by
  unfold Screen.clearCurrentLine
  split
  · exact c3_refl s
  · exact c3_simple _ _ rfl rfl rfl rfl (by simp)

theorem c3_clearAllCurrentLine (s : Screen) : C3Inv s s.clearAllCurrentLine := by
  unfold Screen.clearAllCurrentLine
  split
  · exact c3_refl s
  · exact c3_simple _ _ rfl rfl rfl rfl (by simp)

theorem c3_clearRow (s : Screen) (y xs xe : Int) : C3Inv s (s.clearRow y xs xe) := by
  unfold Screen.clearRow
  dsimp only
  split
  · exact c3_refl s
  · exact c3_simple _ _ rfl rfl rfl rfl (by simp)

theorem c3_newLine (s : Screen) : C3Inv s s.newLine :=
  c3_simple _ _ rfl rfl rfl rfl (by simp [Screen.newLine])

theorem c3_carriageReturn (s : Screen) : C3Inv s s.carriageReturn :=
  c3_simple _ _ rfl rfl rfl rfl (by simp [Screen.carriageReturn])

theorem c3_backspace (s : Screen) : C3Inv s s.backspace := by
  unfold Screen.backspace
  split <;> exact c3_simple _ _ rfl rfl rfl rfl (by simp)

theorem c3_revNewLine (s : Screen) : C3Inv s s.revNewLine := by
  unfold Screen.revNewLine
  split <;> exact c3_simple _ _ rfl rfl rfl rfl (by simp)

theorem c3_up (s : Screen) (i : List Nat) : C3Inv s (s.up i) :=
  c3_simple _ _ rfl rfl rfl rfl (by simp [Screen.up])

theorem c3_down (s : Screen) (i : List Nat) : C3Inv s (s.down i) :=
  c3_simple _ _ rfl rfl rfl rfl (by simp [Screen.down])

theorem c3_forward (s : Screen) (i : List Nat) : C3Inv s (s.forward i) :=
  c3_simple _ _ rfl rfl rfl rfl (by simp [Screen.forward])

theorem c3_backward (s : Screen) (i : List Nat) : C3Inv s (s.backward i) :=
  c3_simple _ _ rfl rfl rfl rfl (by simp [Screen.backward])

theorem c3_color (s : Screen) (i : List (List Nat)) : C3Inv s (s.color i) :=
  c3_simple _ _ rfl rfl rfl rfl (by simp [Screen.color])

theorem c3_applyJ (s : Screen) (arg : List Nat) : C3Inv s (s.applyJ arg) := by
  unfold Screen.applyJ
  dsimp only
  split_ifs
  · exact c3_clearCurrentLine s s.x screenEndOfLine
  · refine c3_trans (c3_clearCurrentLine s s.x screenEndOfLine) ?_
    refine c3_simple _ _ rfl rfl rfl rfl ?_
    simp only [List.length_take]
    omega
  · refine c3_trans (c3_clearCurrentLine s screenStartOfLine s.x) ?_
    exact c3_simple _ _ rfl rfl rfl rfl (by simp [clearAllRange])
  · refine c3_simple _ _ rfl rfl rfl rfl ?_
    simp only [List.length_take]
    omega
  · exact c3_simple _ _ rfl rfl rfl rfl (by simp)
  · exact c3_refl s

theorem c3_applyK (s : Screen) (arg : List Nat) : C3Inv s (s.applyK arg) := by
  unfold Screen.applyK
  split_ifs
  · exact c3_clearCurrentLine s s.x screenEndOfLine
  · exact c3_clearCurrentLine s screenStartOfLine s.x
  · exact c3_clearAllCurrentLine s
  · exact c3_refl s

/-- No-op dispatch of applyEscape: a code outside the handled set. -/
theorem applyEscape_other (s : Screen) (code : Nat) (insts : List (List Nat))
    (hq : ¬ (instGet insts 0).head? = some 0x3F)
    (hc : code ∉ ([0x41, 0x42, 0x43, 0x44, 0x45, 0x46, 0x47, 0x48, 0x4A, 0x4B, 0x4D] : List Nat)) :
    s.applyEscape code insts = s := by
  simp only [List.mem_cons, List.not_mem_nil, or_false, not_or] at hc
  obtain ⟨n1, n2, n3, n4, n5, n6, n7, n8, n9, n10, n11⟩ := hc
  rw [Screen.applyEscape.eq_def, if_neg hq, if_neg n1, if_neg n2, if_neg n3,
    if_neg n4, if_neg n5, if_neg n6, if_neg n7, if_neg n8, if_neg n9,
    if_neg n10, if_neg n11]

theorem c3_applyEscape (s : Screen) (code : Nat) (insts : List (List Nat)) :
    C3Inv s (s.applyEscape code insts) := by
  by_cases hq : (instGet insts 0).head? = some 0x3F
  · rw [applyEscape_private s code insts hq]
    exact c3_refl s
  · by_cases hmem : code ∈ ([0x41, 0x42, 0x43, 0x44, 0x45, 0x46, 0x47, 0x48, 0x4A, 0x4B, 0x4D] : List Nat)
    · simp only [List.mem_cons, List.not_mem_nil, or_false] at hmem
      rcases hmem with rfl | rfl | rfl | rfl | rfl | rfl | rfl | rfl | rfl | rfl | rfl
      · rw [applyEscape_A s insts hq]; exact c3_up s _
      · rw [applyEscape_B s insts hq]; exact c3_down s _
      · rw [applyEscape_C s insts hq]; exact c3_forward s _
      · rw [applyEscape_D s insts hq]; exact c3_backward s _
      · rw [applyEscape_E s insts hq]
        exact c3_trans (c3_simple _ _ rfl rfl rfl rfl (by simp)) (c3_down _ _)
      · rw [applyEscape_F s insts hq]
        exact c3_trans (c3_simple _ _ rfl rfl rfl rfl (by simp)) (c3_up _ _)
      · rw [applyEscape_G s insts hq]
        exact c3_simple _ _ rfl rfl rfl rfl (by simp)
      · rw [applyEscape_H s insts hq]
        exact c3_simple _ _ rfl rfl rfl rfl (by simp)
      · rw [applyEscape_J s insts hq]; exact c3_applyJ s _
      · rw [applyEscape_K s insts hq]; exact c3_applyK s _
      · rw [applyEscape_M s insts hq]; exact c3_color s _
    · rw [applyEscape_other s code insts hq hmem]
      exact c3_refl s

theorem c3_oscOwnLinePre (s : Screen) : C3Inv s s.oscOwnLinePre := by
  unfold Screen.oscOwnLinePre
  dsimp only
  by_cases hx : s.x ≠ 0
  · rw [if_pos hx]
    exact c3_trans (c3_newLine s) (c3_clearRow _ _ _ _)
  · rw [if_neg hx]
    exact c3_clearRow _ _ _ _

theorem c3_oscRender (s : Screen) (img? : Option element) (err? : Option (List Nat)) :
    C3Inv s (s.oscRender img? err?) := by
  unfold Screen.oscRender
  rcases err? with _ | e
  · rcases img? with _ | i
    · exact c3_refl _
    · exact c3_appendElement _ _
  · exact c3_trans (c3_appendMany _ _) (c3_appendMany _ _)

theorem c3_processOSC (co : Collab) (p : PState) (endIdx : Int) :
    C3Inv p.screen (p.processOSC co endIdx).screen := by
  unfold PState.processOSC
  dsimp only
  rcases hp : co.parseElementSequence
      ((p.buffer.drop p.instructionStartedAt.toNat).take (endIdx - p.instructionStartedAt).toNat)
    with ⟨img, err⟩
  rcases img with _ | i <;> rcases err with _ | e <;> dsimp only
  · exact c3_refl _
  all_goals
    split_ifs <;>
      first
        | exact c3_trans (c3_oscOwnLinePre _) (c3_trans (c3_oscRender _ _ _) (c3_newLine _))
        | exact c3_oscRender _ _ _
        | simp_all

theorem c3_processAPC (co : Collab) (p : PState) (endIdx : Int) :
    C3Inv p.screen (p.processAPC co endIdx).screen := by
  unfold PState.processAPC
  dsimp only
  rcases hp : co.parseBuildkiteAPC
      ((p.buffer.drop p.instructionStartedAt.toNat).take (endIdx - p.instructionStartedAt).toNat)
    with ⟨data, err⟩
  rcases data with _ | d <;> rcases err with _ | e <;> dsimp only
  · exact c3_refl _
  · exact c3_trans (c3_appendMany _ _) (c3_appendMany _ _)
  · exact c3_setLineMetadata _ _ _
  · exact c3_trans (c3_appendMany _ _) (c3_appendMany _ _)

theorem c3_step (co : Collab) (p : PState) : C3Inv p.screen ((p.step co).screen) := by
  unfold PState.step
  cases hm : p.mode
  all_goals simp only
  case normal =>
    unfold PState.handleNormal
    split_ifs <;>
      first
        | exact c3_newLine _
        | exact c3_carriageReturn _
        | exact c3_backspace _
        | exact c3_refl _
        | exact c3_append _ _
  case escape =>
    unfold PState.handleEscape
    split_ifs <;>
      first
        | exact c3_refl _
        | exact c3_revNewLine _
        | exact c3_simple _ _ rfl rfl rfl rfl (by simp)
  case control =>
    unfold PState.handleControlSequence
    dsimp only
    split_ifs <;>
      first
        | exact c3_refl _
        | (unfold PState.addInstruction; dsimp only; split <;> exact c3_refl _)
        | (unfold PState.addInstruction; dsimp only; split <;> exact c3_applyEscape _ _ _)
  case osc =>
    unfold PState.handleOSC
    split_ifs
    · exact c3_processOSC co p p.cursor
    · exact c3_refl _
    · exact c3_refl _
  case oscEsc =>
    unfold PState.handleOSCEscape
    split_ifs
    · exact c3_processOSC co p (p.cursor - 1)
    · exact c3_refl _
  case charset => exact c3_refl _
  case apc =>
    unfold PState.handleAPC
    split_ifs
    · exact c3_processAPC co p p.cursor
    · exact c3_refl _
    · exact c3_refl _
  case apcEsc =>
    unfold PState.handleAPCEscape
    split_ifs
    · exact c3_processAPC co p (p.cursor - 1)
    · exact c3_refl _

theorem c3_runLoop (co : Collab) (fuel : Nat) (p : PState) :
    C3Inv p.screen ((runLoop co fuel p).screen) := by
  induction fuel generalizing p with
  | zero => exact c3_refl _
  | succ n ih =>
    unfold runLoop
    split
    · exact c3_trans (c3_step co p) (ih _)
    · exact c3_refl _

theorem c3_parseToScreen (co : Collab) (p : PState) (input : List Nat) :
    C3Inv p.screen ((p.parseToScreen co input).screen) := by
  unfold PState.parseToScreen
  exact c3_runLoop co _ _

/-- C3: whenever maxLines is positive and the buffer is within the cap,
any Write keeps the buffer within the (unchanged) cap; and with the
scroll-out callback set, the log of HTML lines it was called with extends
by exactly the evicted lines, with LinesScrolledOut advancing by exactly
one per entry (the model appends each evicted line's rendered HTML to the
log at the moment of eviction, before the rotation). -/
theorem c3_maxlines_and_scrollout (co : Collab) (p : PState) (input : List Nat)
    (hm : 0 < p.screen.maxLines)
    (hcap : (p.screen.screen.length : Int) ≤ p.screen.maxLines) :
    ((p.goWrite co input).1.screen.screen.length : Int) ≤ (p.goWrite co input).1.screen.maxLines
    ∧ (p.goWrite co input).1.screen.maxLines = p.screen.maxLines
    ∧ ∃ ev : List (List Nat),
        (p.goWrite co input).1.screen.scrollOutLog = p.screen.scrollOutLog ++ ev
        ∧ (p.screen.hasScrollOutFunc = true →
            (p.goWrite co input).1.screen.linesScrolledOut =
              p.screen.linesScrolledOut + (ev.length : Int)) := by
  simp only [PState.goWrite]
  obtain ⟨⟨hml, hflag, ev, hlog, hcnt⟩, hcap'⟩ := c3_parseToScreen co p input
  refine ⟨?_, hml, ev, hlog, hcnt⟩
  have := hcap' (fun _ => hcap)
  exact this (by rw [hml]; exact hm)

/-- Witness state for C3: a fresh screen with WithMaxSize(0, 2) applied
and the scroll-out callback set. -/
def c3wstate : PState :=
  { newScreen with screen :=
      { (newScreen.screen.withMaxSize 0 2) with hasScrollOutFunc := true } }

/-- Witness input for C3: the bytes of "a\nb\nc\nd". -/
def c3winput : List Nat := [0x61, 0x0A, 0x62, 0x0A, 0x63, 0x0A, 0x64]

/-- C3 witness: the spec's scroll-out scenario: a 2-line cap with the
callback set, writing "a\nb\nc\nd". -/
theorem c3_maxlines_and_scrollout_witness :
    (0 : Int) < c3wstate.screen.maxLines
    ∧ (c3wstate.screen.screen.length : Int) ≤ c3wstate.screen.maxLines
    ∧ (((c3wstate.goWrite defaultCollab c3winput).1.screen.screen.length : Int)
        ≤ (c3wstate.goWrite defaultCollab c3winput).1.screen.maxLines
      ∧ (c3wstate.goWrite defaultCollab c3winput).1.screen.maxLines = c3wstate.screen.maxLines
      ∧ ∃ ev : List (List Nat),
          (c3wstate.goWrite defaultCollab c3winput).1.screen.scrollOutLog =
            c3wstate.screen.scrollOutLog ++ ev
          ∧ (c3wstate.screen.hasScrollOutFunc = true →
              (c3wstate.goWrite defaultCollab c3winput).1.screen.linesScrolledOut =
                c3wstate.screen.linesScrolledOut + (ev.length : Int))) :=
  ⟨by decide, by decide,
    c3_maxlines_and_scrollout defaultCollab c3wstate c3winput (by decide) (by decide)⟩

/-! ### Claim C9: the cursor never goes negative -/

/-- The screen-level cursor invariant: nonnegative cursor, positive window. -/
def ScreenOK (s : Screen) : Prop :=
  0 ≤ s.x ∧ 0 ≤ s.y ∧ 0 < s.cols ∧ 0 < s.lines

/-- A well-formed CSI parameter string: only ? and decimal digits, the only
bytes the control-sequence switch accumulates. -/
def wfInst (bs : List Nat) : Prop :=
  ∀ b ∈ bs, b = 0x3F ∨ (0x30 ≤ b ∧ b ≤ 0x39)

/-- The parameter bytes accumulated so far inside the current CSI:
buffer[instructionStartedAt:cursor]. -/
def ctlRegion (p : PState) : List Nat :=
  (p.buffer.drop p.instructionStartedAt.toNat).take
    (p.cursor - p.instructionStartedAt).toNat

/-- The parser invariant: the screen invariant, a nonnegative saved cursor,
well-formed accumulated parameters, the cursor within the buffer, and the
escape/instruction offsets ordered while a sequence is open. -/
def PInv (p : PState) : Prop :=
  ScreenOK p.screen
  ∧ 0 ≤ p.saveX ∧ 0 ≤ p.saveY
  ∧ (∀ i ∈ p.instructions, wfInst i)
  ∧ 0 ≤ p.cursor ∧ p.cursor ≤ (p.buffer.length : Int)
  ∧ (p.mode ≠ PMode.normal → 0 ≤ p.escapeStartedAt ∧ p.escapeStartedAt ≤ p.cursor)
  ∧ (p.mode = PMode.control →
      p.escapeStartedAt ≤ p.instructionStartedAt ∧ p.instructionStartedAt ≤ p.cursor
      ∧ wfInst (ctlRegion p))

/-- A decoded rune with head byte at or above 0x80 is itself at or above
0x80 (either a multi-byte scalar or the replacement character). -/
theorem decodeRune_head_big (b0 : Nat) (rest : List Nat) (h0 : ¬ b0 < 0x80) :
    0x80 ≤ (decodeRune (b0 :: rest)).1 := by
  unfold decodeRune
  dsimp only
  rw [if_neg h0]
  rcases hinfo : utf8Info b0 with _ | ⟨sz, lo, hi⟩ <;> dsimp only [runeError]
  · omega
  · have hranges := hinfo
    unfold utf8Info at hranges
    split_ifs at hranges <;>
      simp only [Option.some.injEq, Prod.mk.injEq] at hranges <;>
      obtain ⟨rfl, rfl, rfl⟩ := hranges <;>
      rcases rest with _ | ⟨b1, rest2⟩ <;>
      (try rcases rest2 with _ | ⟨b2, rest3⟩) <;>
      (try rcases rest3 with _ | ⟨b3, rest4⟩) <;>
      dsimp only [runeError] <;>
      (try split_ifs) <;>
      (try dsimp only) <;>
      omega

/-- A decode that yields a rune below 0x80 consumed exactly the single
head byte, which is the rune itself. -/
theorem decodeRune_ascii (l : List Nat) (c k : Nat)
    (hd : decodeRune l = (c, k)) (hc : c < 0x80) : l.head? = some c ∧ k = 1 := by
  match l with
  | [] =>
    unfold decodeRune at hd
    cases hd
    simp [runeError] at hc
  | b0 :: rest =>
    by_cases h0 : b0 < 0x80
    · unfold decodeRune at hd
      dsimp only at hd
      rw [if_pos h0] at hd
      cases hd
      exact ⟨rfl, rfl⟩
    · have hbig := decodeRune_head_big b0 rest h0
      rw [hd] at hbig
      omega

/-- A decode of a nonempty slice consumes between 1 and len bytes. -/
theorem decodeRune_size (l : List Nat) (hne : l ≠ []) :
    1 ≤ (decodeRune l).2 ∧ (decodeRune l).2 ≤ l.length := by
  match l with
  | [] => exact absurd rfl hne
  | b0 :: rest =>
    unfold decodeRune
    dsimp only
    split_ifs with h0
    · simp
    · rcases hinfo : utf8Info b0 with _ | ⟨sz, lo, hi⟩ <;>
        rcases rest with _ | ⟨b1, rest2⟩ <;>
        (try rcases rest2 with _ | ⟨b2, rest3⟩) <;>
        (try rcases rest3 with _ | ⟨b3, rest4⟩) <;>
        dsimp only [runeError] <;>
        (try split_ifs) <;>
        (try dsimp only) <;>
        (try simp only [List.length_cons, List.length_nil]) <;>
        omega

/-- atoi of a string not starting with a minus never returns a negative
value. -/
theorem atoi_nonneg (s : List Nat) (i : Int)
    (hm : s.head? ≠ some 0x2D) (h : atoi s = some i) : 0 ≤ i := by
  unfold atoi at h
  dsimp only at h
  rw [if_neg hm] at h
  split_ifs at h <;> cases h <;> simp

/-- ansiInt of a well-formed parameter string is nonnegative. -/
theorem ansiInt_nonneg (bs : List Nat) (h : wfInst bs) : 0 ≤ ansiInt bs := by
  unfold ansiInt
  split_ifs with he
  · omega
  · rcases ha : atoi bs with _ | i <;> dsimp only
    · omega
    · have hm : bs.head? ≠ some 0x2D := by
        rcases bs with _ | ⟨b, t⟩
        · simp
        · have hb := h b (by simp)
          simp only [List.head?_cons, ne_eq, Option.some.injEq]
          rcases hb with hb | hb <;> omega
      exact atoi_nonneg bs i hm ha

/-- instGet of a list of well-formed parameters is well-formed. -/
theorem wfInst_instGet (l : List (List Nat)) (n : Nat)
    (h : ∀ i ∈ l, wfInst i) : wfInst (instGet l n) := by
  unfold instGet
  by_cases hn : n < l.length
  · rw [List.getD_eq_get _ _ hn]
    exact h _ (List.get_mem l _ _)
  · rw [List.getD_eq_default]
    · intro b hb
      simp at hb
    · omega

/-- toUpper maps below 0x40 only fixed points. -/
theorem toUpper_low (c : Nat) (h : toUpper c < 0x40) : toUpper c = c := by
  unfold toUpper at *
  split_ifs at * <;> omega

theorem sok_newLine (s : Screen) (h : ScreenOK s) : ScreenOK s.newLine := by
  obtain ⟨hx, hy, hc, hl⟩ := h
  unfold Screen.newLine ScreenOK
  dsimp only
  exact ⟨le_refl 0, by omega, hc, hl⟩

theorem sok_carriageReturn (s : Screen) (h : ScreenOK s) : ScreenOK s.carriageReturn := by
  obtain ⟨hx, hy, hc, hl⟩ := h
  unfold Screen.carriageReturn ScreenOK
  dsimp only
  exact ⟨le_refl 0, hy, hc, hl⟩

theorem sok_backspace (s : Screen) (h : ScreenOK s) : ScreenOK s.backspace := by
  obtain ⟨hx, hy, hc, hl⟩ := h
  unfold Screen.backspace ScreenOK
  split <;> (try dsimp only) <;> exact ⟨by omega, hy, hc, hl⟩

theorem sok_revNewLine (s : Screen) (h : ScreenOK s) : ScreenOK s.revNewLine := by
  obtain ⟨hx, hy, hc, hl⟩ := h
  unfold Screen.revNewLine ScreenOK
  split <;> (try dsimp only) <;> exact ⟨hx, by omega, hc, hl⟩

theorem sok_up (s : Screen) (i : List Nat) (h : ScreenOK s) : ScreenOK (s.up i) := by
  obtain ⟨hx, hy, hc, hl⟩ := h
  unfold Screen.up ScreenOK
  dsimp only
  refine ⟨goMod_nonneg s.x s.cols hx, ?_, hc, hl⟩
  split <;> omega

theorem sok_down (s : Screen) (i : List Nat) (hn : 0 ≤ ansiInt i) (h : ScreenOK s) :
    ScreenOK (s.down i) := by
  obtain ⟨hx, hy, hc, hl⟩ := h
  unfold Screen.down ScreenOK
  dsimp only
  refine ⟨goMod_nonneg s.x s.cols hx, ?_, hc, hl⟩
  split <;> omega

theorem sok_forward (s : Screen) (i : List Nat) (hn : 0 ≤ ansiInt i) (h : ScreenOK s) :
    ScreenOK (s.forward i) := by
  obtain ⟨hx, hy, hc, hl⟩ := h
  unfold Screen.forward ScreenOK
  dsimp only
  refine ⟨?_, hy, hc, hl⟩
  split <;> omega

theorem sok_backward (s : Screen) (i : List Nat) (h : ScreenOK s) :
    ScreenOK (s.backward i) := by
  obtain ⟨hx, hy, hc, hl⟩ := h
  unfold Screen.backward ScreenOK
  dsimp only
  refine ⟨?_, hy, hc, hl⟩
  split <;> omega

theorem sok_color (s : Screen) (i : List (List Nat)) (h : ScreenOK s) :
    ScreenOK (s.color i) := h

theorem sok_clearCurrentLine (s : Screen) (xs xe : Int) (h : ScreenOK s) :
    ScreenOK (s.clearCurrentLine xs xe) := by
  unfold Screen.clearCurrentLine
  rcases ho : s.currentLineIdx? with _ | i <;> exact h

theorem sok_clearAllCurrentLine (s : Screen) (h : ScreenOK s) :
    ScreenOK s.clearAllCurrentLine := by
  unfold Screen.clearAllCurrentLine
  rcases ho : s.currentLineIdx? with _ | i <;> exact h

theorem sok_clearRow (s : Screen) (y xs xe : Int) (h : ScreenOK s) :
    ScreenOK (s.clearRow y xs xe) := by
  unfold Screen.clearRow
  dsimp only
  split <;> exact h

theorem sok_clfwStep (s : Screen) (h : ScreenOK s) (hno : s.currentLineIdx? = none) :
    ScreenOK s.clfwStep := by
  obtain ⟨hx, hy, hc, hl⟩ := h
  have htopnn : (0 : Int) ≤ s.top := le_max_left 0 _
  have htop2 : s.top = 0 ∨ s.top = (s.screen.length : Int) - s.lines := max_choice 0 _
  have hyidx : (s.screen.length : Int) ≤ s.top + s.y := by
    unfold Screen.currentLineIdx? at hno
    dsimp only at hno
    split_ifs at hno with hcond
    · rcases hcond with hlt | hge
      · exfalso
        omega
      · exact hge
  unfold Screen.clfwStep
  dsimp only
  split
  · rename_i hguard
    split_ifs with hge <;> refine ⟨hx, ?_, hc, hl⟩ <;> dsimp only <;> omega
  · rename_i hguard
    match hscr : s.screen with
    | [] => exact ⟨hx, hy, hc, hl⟩
    | l0 :: rest =>
      dsimp only
      rw [hscr] at hyidx htop2
      simp only [List.length_cons] at hyidx htop2
      split_ifs with hflag <;> refine ⟨hx, ?_, hc, hl⟩ <;> dsimp only <;> omega

theorem sok_clfwLoop (fuel : Nat) (s : Screen) (h : ScreenOK s) :
    ScreenOK (clfwLoop fuel s) := by
  induction fuel generalizing s with
  | zero => exact h
  | succ n ih =>
    unfold clfwLoop
    split
    · rename_i hno
      exact ih _ (sok_clfwStep s h hno)
    · exact h

theorem sok_clfw (s : Screen) (h : ScreenOK s) : ScreenOK s.currentLineForWriting.1 := by
  unfold Screen.currentLineForWriting
  have h1 := sok_clfwLoop s.clfwFuel s h
  dsimp only
  rcases ho : (clfwLoop s.clfwFuel s).currentLineIdx? with _ | i
  · exact h1
  · exact h1

theorem sok_write (s : Screen) (r : Nat) (h : ScreenOK s) : ScreenOK (s.write r) := by
  have h1 := sok_clfw s h
  unfold Screen.write
  rcases hc : s.currentLineForWriting with ⟨s1, oi⟩
  rw [hc] at h1
  rcases oi with _ | i
  · exact h1
  · dsimp only
    split <;> exact h1

theorem sok_append (s : Screen) (r : Nat) (h : ScreenOK s) : ScreenOK (s.append r) := by
  have h1 := sok_write s r h
  obtain ⟨hx, hy, hc, hl⟩ := h1
  unfold Screen.append
  exact ⟨by dsimp only; omega, hy, hc, hl⟩

theorem sok_appendMany (data : List Nat) (s : Screen) (h : ScreenOK s) :
    ScreenOK (s.appendMany data) := by
  induction data generalizing s with
  | nil => exact h
  | cons d rest ih =>
    have : s.appendMany (d :: rest) = (s.append d).appendMany rest := rfl
    rw [this]
    exact ih _ (sok_append s d h)

theorem sok_appendElement (s : Screen) (e : element) (h : ScreenOK s) :
    ScreenOK (s.appendElement e) := by
  have h1 := sok_clfw s h
  obtain ⟨hx, hy, hc, hl⟩ := h1
  unfold Screen.appendElement
  rcases hcl : s.currentLineForWriting with ⟨s1, oi⟩
  rw [hcl] at hx hy hc hl
  rcases oi with _ | i
  · exact ⟨hx, hy, hc, hl⟩
  · dsimp only
    refine ⟨?_, hy, hc, hl⟩
    dsimp only at hx ⊢
    omega

theorem sok_setLineMetadata (s : Screen) (ns : List Nat)
    (data : List (List Nat × List Nat)) (h : ScreenOK s) :
    ScreenOK (s.setLineMetadata ns data) := by
  have h1 := sok_clfw s h
  unfold Screen.setLineMetadata
  rcases hcl : s.currentLineForWriting with ⟨s1, oi⟩
  rw [hcl] at h1
  rcases oi with _ | i
  · exact h1
  · dsimp only
    exact h1

theorem sok_applyJ (s : Screen) (arg : List Nat) (h : ScreenOK s) :
    ScreenOK (s.applyJ arg) := by
  obtain ⟨hx, hy, hc, hl⟩ := h
  unfold Screen.applyJ
  dsimp only
  split_ifs
  · exact sok_clearCurrentLine s s.x screenEndOfLine ⟨hx, hy, hc, hl⟩
  · have h2 := sok_clearCurrentLine s s.x screenEndOfLine ⟨hx, hy, hc, hl⟩
    obtain ⟨h2x, h2y, h2c, h2l⟩ := h2
    exact ⟨h2x, h2y, h2c, h2l⟩
  · have h2 := sok_clearCurrentLine s screenStartOfLine s.x ⟨hx, hy, hc, hl⟩
    obtain ⟨h2x, h2y, h2c, h2l⟩ := h2
    exact ⟨h2x, h2y, h2c, h2l⟩
  · exact ⟨le_refl 0, le_refl 0, hc, hl⟩
  · exact ⟨le_refl 0, le_refl 0, hc, hl⟩
  · exact ⟨hx, hy, hc, hl⟩

theorem sok_applyK (s : Screen) (arg : List Nat) (h : ScreenOK s) :
    ScreenOK (s.applyK arg) := by
  unfold Screen.applyK
  split_ifs
  · exact sok_clearCurrentLine s s.x screenEndOfLine h
  · exact sok_clearCurrentLine s screenStartOfLine s.x h
  · exact sok_clearAllCurrentLine s h
  · exact h

theorem sok_applyEscape (s : Screen) (code : Nat) (insts : List (List Nat))
    (hwf : ∀ i ∈ insts, wfInst i) (h : ScreenOK s) :
    ScreenOK (s.applyEscape code insts) := by
  obtain ⟨hx, hy, hc, hl⟩ := h
  have hn0 : 0 ≤ ansiInt (instGet insts 0) := ansiInt_nonneg _ (wfInst_instGet insts 0 hwf)
  have hn1 : 0 ≤ ansiInt (instGet insts 1) := ansiInt_nonneg _ (wfInst_instGet insts 1 hwf)
  by_cases hq : (instGet insts 0).head? = some 0x3F
  · rw [applyEscape_private s code insts hq]
    exact ⟨hx, hy, hc, hl⟩
  · by_cases hmem : code ∈ ([0x41, 0x42, 0x43, 0x44, 0x45, 0x46, 0x47, 0x48, 0x4A, 0x4B, 0x4D] : List Nat)
    · simp only [List.mem_cons, List.not_mem_nil, or_false] at hmem
      rcases hmem with rfl | rfl | rfl | rfl | rfl | rfl | rfl | rfl | rfl | rfl | rfl
      · rw [applyEscape_A s insts hq]
        exact sok_up s _ ⟨hx, hy, hc, hl⟩
      · rw [applyEscape_B s insts hq]
        exact sok_down s _ hn0 ⟨hx, hy, hc, hl⟩
      · rw [applyEscape_C s insts hq]
        exact sok_forward s _ hn0 ⟨hx, hy, hc, hl⟩
      · rw [applyEscape_D s insts hq]
        exact sok_backward s _ ⟨hx, hy, hc, hl⟩
      · rw [applyEscape_E s insts hq]
        exact sok_down _ _ hn0 ⟨le_refl 0, hy, hc, hl⟩
      · rw [applyEscape_F s insts hq]
        exact sok_up _ _ ⟨le_refl 0, hy, hc, hl⟩
      · rw [applyEscape_G s insts hq]
        refine ⟨?_, hy, hc, hl⟩
        dsimp only
        omega
      · rw [applyEscape_H s insts hq]
        refine ⟨?_, ?_, hc, hl⟩ <;> dsimp only <;> omega
      · rw [applyEscape_J s insts hq]
        exact sok_applyJ s _ ⟨hx, hy, hc, hl⟩
      · rw [applyEscape_K s insts hq]
        exact sok_applyK s _ ⟨hx, hy, hc, hl⟩
      · rw [applyEscape_M s insts hq]
        exact ⟨hx, hy, hc, hl⟩
    · rw [applyEscape_other s code insts hq hmem]
      exact ⟨hx, hy, hc, hl⟩

theorem sok_oscOwnLinePre (s : Screen) (h : ScreenOK s) : ScreenOK s.oscOwnLinePre := by
  unfold Screen.oscOwnLinePre
  dsimp only
  by_cases hx0 : s.x ≠ 0
  · rw [if_pos hx0]
    exact sok_clearRow _ _ _ _ (sok_newLine s h)
  · rw [if_neg hx0]
    exact sok_clearRow _ _ _ _ h

theorem sok_oscRender (s : Screen) (img? : Option element) (err? : Option (List Nat))
    (h : ScreenOK s) : ScreenOK (s.oscRender img? err?) := by
  unfold Screen.oscRender
  rcases err? with _ | e
  · rcases img? with _ | i
    · exact h
    · exact sok_appendElement _ _ h
  · exact sok_appendMany _ _ (sok_appendMany _ _ h)

/-- The empty parameter list and any take of nonpositive length are
well-formed. -/
theorem wfInst_take_zero (l : List Nat) (n : Int) (hn : n ≤ 0) :
    wfInst (l.take n.toNat) := by
  rw [show n.toNat = 0 from by omega, List.take_zero]
  intro b hb
  exact absurd hb (List.not_mem_nil b)

/-- Appending one accumulated byte keeps a parameter string well-formed. -/
theorem wfInst_snoc (l : List Nat) (b : Nat) (hl : wfInst l)
    (hb : b = 0x3F ∨ (0x30 ≤ b ∧ b ≤ 0x39)) : wfInst (l ++ [b]) := by
  intro x hx
  rcases List.mem_append.mp hx with hx | hx
  · exact hl x hx
  · obtain rfl := List.mem_singleton.mp hx
    exact hb

/-- Appending one well-formed parameter keeps the instruction list
well-formed. -/
theorem wfInsts_snoc (l : List (List Nat)) (i : List Nat)
    (hl : ∀ j ∈ l, wfInst j) (hi : wfInst i) : ∀ j ∈ l ++ [i], wfInst j := by
  intro j hj
  rcases List.mem_append.mp hj with hj | hj
  · exact hl j hj
  · obtain rfl := List.mem_singleton.mp hj
    exact hi

/-- Extending the accumulated slice buffer[i:c] by one position appends the
byte at position c. -/
theorem ctlRegion_succ (buf : List Nat) (i c : Int) (b : Nat) (rest : List Nat)
    (hi0 : 0 ≤ i) (hic : i ≤ c)
    (hdrop : buf.drop c.toNat = b :: rest) :
    (buf.drop i.toNat).take (c + 1 - i).toNat
      = (buf.drop i.toNat).take (c - i).toNat ++ [b] := by
  have hb : buf[c.toNat]? = some b := by
    have h0 := List.getElem?_drop buf c.toNat 0
    rw [hdrop] at h0
    simpa using h0.symm
  rw [show (c + 1 - i).toNat = (c - i).toNat + 1 from by omega, List.take_succ]
  have h2 : (buf.drop i.toNat)[(c - i).toNat]? = some b := by
    rw [List.getElem?_drop, show i.toNat + (c - i).toNat = c.toNat from by omega]
    exact hb
  rw [h2]
  rfl

/-- One accumulation step preserves well-formedness of the slice when the
new byte is itself a parameter byte. -/
theorem wf_region_succ (buf : List Nat) (i c : Int) (b : Nat) (rest : List Nat)
    (hi0 : 0 ≤ i) (hic : i ≤ c)
    (hdrop : buf.drop c.toNat = b :: rest)
    (hwf : wfInst ((buf.drop i.toNat).take (c - i).toNat))
    (hb : b = 0x3F ∨ (0x30 ≤ b ∧ b ≤ 0x39)) :
    wfInst ((buf.drop i.toNat).take (c + 1 - i).toNat) := by
  rw [ctlRegion_succ buf i c b rest hi0 hic hdrop]
  exact wfInst_snoc _ _ hwf hb

/-- The accumulated slice is unaffected by appending input past the cursor. -/
theorem ctlRegion_append (buf ext : List Nat) (i c : Int) (hi0 : 0 ≤ i)
    (hic : i ≤ c) (hcle : c ≤ (buf.length : Int)) :
    ((buf ++ ext).drop i.toNat).take (c - i).toNat
      = (buf.drop i.toNat).take (c - i).toNat := by
  rw [List.drop_append_of_le_length (by omega)]
  rw [List.take_append_of_le_length]
  rw [List.length_drop]
  omega

/-- The accumulated slice is unaffected by trimming a fully-processed
prefix of length d, after shifting both offsets. -/
theorem ctlRegion_shift (buf : List Nat) (d i c : Int) (hd0 : 0 ≤ d)
    (hdi : d ≤ i) (hic : i ≤ c) :
    ((buf.drop d.toNat).drop (i - d).toNat).take ((c - d) - (i - d)).toNat
      = (buf.drop i.toNat).take (c - i).toNat := by
  rw [List.drop_drop]
  rw [show d.toNat + (i - d).toNat = i.toNat from by omega]
  rw [show (c - d) - (i - d) = c - i from by ring]

/-- Under the loop guard the slice at the cursor is nonempty, and the rune
length there is between 1 and the remaining length. -/
theorem step_decode_facts (p : PState) (hc0 : 0 ≤ p.cursor)
    (hlt : p.cursor < (p.buffer.length : Int)) :
    ∃ b rest, p.buffer.drop p.cursor.toNat = b :: rest
      ∧ 1 ≤ (decodeRune (b :: rest)).2
      ∧ p.cursor + ((decodeRune (b :: rest)).2 : Int) ≤ (p.buffer.length : Int) := by
  rcases hdrop : p.buffer.drop p.cursor.toNat with _ | ⟨b, rest⟩
  · exfalso
    have hlen := congrArg List.length hdrop
    rw [List.length_drop] at hlen
    simp only [List.length_nil] at hlen
    omega
  · have hsz := decodeRune_size (b :: rest) (List.cons_ne_nil b rest)
    simp only [List.length_cons] at hsz
    have hlen := congrArg List.length hdrop
    rw [List.length_drop] at hlen
    simp only [List.length_cons] at hlen
    exact ⟨b, rest, rfl, hsz.1, by omega⟩

/-- A rune decoded below 0x80 is the head byte itself, of length one. -/
theorem decode_ascii_cons (b : Nat) (rest : List Nat)
    (hlow : (decodeRune (b :: rest)).1 < 0x80) :
    b = (decodeRune (b :: rest)).1 ∧ (decodeRune (b :: rest)).2 = 1 := by
  have h := decodeRune_ascii (b :: rest) (decodeRune (b :: rest)).1
      (decodeRune (b :: rest)).2 rfl hlow
  simp only [List.head?_cons, Option.some.injEq] at h
  exact ⟨h.1, h.2⟩

/-- processOperatingSystemCommand preserves the parser invariant, keeps the
cursor and buffer, and lands in normal mode. -/
theorem pinv_processOSC (co : Collab) (p : PState) (endIdx : Int) (h : PInv p) :
    PInv (p.processOSC co endIdx)
    ∧ (p.processOSC co endIdx).cursor = p.cursor
    ∧ (p.processOSC co endIdx).buffer = p.buffer
    ∧ (p.processOSC co endIdx).mode = PMode.normal := by
  obtain ⟨hs, hsx, hsy, hinsts, hc0, hcl, -, -⟩ := h
  unfold PState.processOSC
  dsimp only
  rcases hpe : co.parseElementSequence
      ((p.buffer.drop p.instructionStartedAt.toNat).take
        (endIdx - p.instructionStartedAt).toNat) with ⟨i?, e?⟩
  rcases i? with _ | i <;> rcases e? with _ | e <;> dsimp only
  · exact ⟨⟨hs, hsx, hsy, hinsts, hc0, hcl, fun hh => absurd rfl hh,
      fun hh => PMode.noConfusion hh⟩, rfl, rfl, rfl⟩
  · refine ⟨⟨?_, hsx, hsy, hinsts, hc0, hcl, fun hh => absurd rfl hh,
      fun hh => PMode.noConfusion hh⟩, rfl, rfl, rfl⟩
    split_ifs with hb
    · exact sok_newLine _ (sok_oscRender _ _ _ (sok_oscOwnLinePre _ hs))
    · exact sok_oscRender _ _ _ hs
  · refine ⟨⟨?_, hsx, hsy, hinsts, hc0, hcl, fun hh => absurd rfl hh,
      fun hh => PMode.noConfusion hh⟩, rfl, rfl, rfl⟩
    split_ifs with hb
    · exact sok_newLine _ (sok_oscRender _ _ _ (sok_oscOwnLinePre _ hs))
    · exact sok_oscRender _ _ _ hs
  · refine ⟨⟨?_, hsx, hsy, hinsts, hc0, hcl, fun hh => absurd rfl hh,
      fun hh => PMode.noConfusion hh⟩, rfl, rfl, rfl⟩
    split_ifs with hb
    · exact sok_newLine _ (sok_oscRender _ _ _ (sok_oscOwnLinePre _ hs))
    · exact sok_oscRender _ _ _ hs

/-- processApplicationProgramCommand preserves the parser invariant, keeps
the cursor and buffer, and lands in normal mode. -/
theorem pinv_processAPC (co : Collab) (p : PState) (endIdx : Int) (h : PInv p) :
    PInv (p.processAPC co endIdx)
    ∧ (p.processAPC co endIdx).cursor = p.cursor
    ∧ (p.processAPC co endIdx).buffer = p.buffer
    ∧ (p.processAPC co endIdx).mode = PMode.normal := by
  obtain ⟨hs, hsx, hsy, hinsts, hc0, hcl, -, -⟩ := h
  unfold PState.processAPC
  dsimp only
  rcases hpe : co.parseBuildkiteAPC
      ((p.buffer.drop p.instructionStartedAt.toNat).take
        (endIdx - p.instructionStartedAt).toNat) with ⟨d?, e?⟩
  rcases d? with _ | d <;> rcases e? with _ | e <;> dsimp only
  · exact ⟨⟨hs, hsx, hsy, hinsts, hc0, hcl, fun hh => absurd rfl hh,
      fun hh => PMode.noConfusion hh⟩, rfl, rfl, rfl⟩
  · exact ⟨⟨sok_appendMany _ _ (sok_appendMany _ _ hs), hsx, hsy, hinsts, hc0,
      hcl, fun hh => absurd rfl hh, fun hh => PMode.noConfusion hh⟩,
      rfl, rfl, rfl⟩
  · exact ⟨⟨sok_setLineMetadata _ _ _ hs, hsx, hsy, hinsts, hc0, hcl,
      fun hh => absurd rfl hh, fun hh => PMode.noConfusion hh⟩, rfl, rfl, rfl⟩
  · exact ⟨⟨sok_appendMany _ _ (sok_appendMany _ _ hs), hsx, hsy, hinsts, hc0,
      hcl, fun hh => absurd rfl hh, fun hh => PMode.noConfusion hh⟩,
      rfl, rfl, rfl⟩

/-- One parser step taken in normal mode preserves the invariant. -/
theorem pinv_step_normal (co : Collab) (p : PState) (h : PInv p)
    (hm : p.mode = PMode.normal) (hlt : p.cursor < (p.buffer.length : Int)) :
    PInv (p.step co) := by
  obtain ⟨hs, hsx, hsy, hinsts, hc0, hcl, hesc, hctl⟩ := h
  obtain ⟨b, rest, hdrop, hk1, hkle⟩ := step_decode_facts p hc0 hlt
  unfold PState.step
  dsimp only
  rw [hm, hdrop]
  dsimp only
  unfold PState.handleNormal
  split_ifs with h1 h2 h3 h4
  · refine ⟨sok_newLine _ hs, hsx, hsy, hinsts, ?_, ?_, fun hh => absurd hm hh,
      fun hh => PMode.noConfusion (hm.symm.trans hh)⟩ <;> dsimp only <;> omega
  · refine ⟨sok_carriageReturn _ hs, hsx, hsy, hinsts, ?_, ?_,
      fun hh => absurd hm hh,
      fun hh => PMode.noConfusion (hm.symm.trans hh)⟩ <;> dsimp only <;> omega
  · refine ⟨sok_backspace _ hs, hsx, hsy, hinsts, ?_, ?_,
      fun hh => absurd hm hh,
      fun hh => PMode.noConfusion (hm.symm.trans hh)⟩ <;> dsimp only <;> omega
  · refine ⟨hs, hsx, hsy, hinsts, ?_, ?_, fun _ => ⟨?_, ?_⟩,
      fun hh => PMode.noConfusion hh⟩ <;> dsimp only <;> omega
  · refine ⟨sok_append _ _ hs, hsx, hsy, hinsts, ?_, ?_,
      fun hh => absurd hm hh,
      fun hh => PMode.noConfusion (hm.symm.trans hh)⟩ <;> dsimp only <;> omega

/-- One parser step taken in charset mode preserves the invariant. -/
theorem pinv_step_charset (co : Collab) (p : PState) (h : PInv p)
    (hm : p.mode = PMode.charset) (hlt : p.cursor < (p.buffer.length : Int)) :
    PInv (p.step co) := by
  obtain ⟨hs, hsx, hsy, hinsts, hc0, hcl, hesc, hctl⟩ := h
  obtain ⟨b, rest, hdrop, hk1, hkle⟩ := step_decode_facts p hc0 hlt
  unfold PState.step
  dsimp only
  rw [hm, hdrop]
  dsimp only
  refine ⟨hs, hsx, hsy, hinsts, ?_, ?_, fun hh => absurd rfl hh,
    fun hh => PMode.noConfusion hh⟩ <;> dsimp only <;> omega

/-- One parser step taken in escape mode preserves the invariant. -/
theorem pinv_step_escape (co : Collab) (p : PState) (h : PInv p)
    (hm : p.mode = PMode.escape) (hlt : p.cursor < (p.buffer.length : Int)) :
    PInv (p.step co) := by
  obtain ⟨hs, hsx, hsy, hinsts, hc0, hcl, hesc, hctl⟩ := h
  have hE := hesc (by rw [hm]; exact fun hh => PMode.noConfusion hh)
  obtain ⟨b, rest, hdrop, hk1, hkle⟩ := step_decode_facts p hc0 hlt
  unfold PState.step
  dsimp only
  rw [hm, hdrop]
  dsimp only
  unfold PState.handleEscape
  split_ifs with h1 h2 h3 h4 h5 h6 h7
  · obtain ⟨hbeq, hkeq⟩ := decode_ascii_cons b rest (by omega)
    have hreg : wfInst ((p.buffer.drop (p.cursor + 1).toNat).take
        ((p.cursor + ((decodeRune (b :: rest)).2 : Int)) - (p.cursor + 1)).toNat) :=
      wfInst_take_zero _ _ (by omega)
    refine ⟨hs, hsx, hsy, fun j hj => absurd hj (List.not_mem_nil j),
        ?_, ?_, fun _ => ⟨?_, ?_⟩, fun _ => ⟨?_, ?_, hreg⟩⟩ <;>
      (try dsimp only) <;> omega
  · refine ⟨hs, hsx, hsy, hinsts, ?_, ?_, fun _ => ⟨?_, ?_⟩,
      fun hh => PMode.noConfusion hh⟩ <;> dsimp only <;> omega
  · refine ⟨hs, hsx, hsy, hinsts, ?_, ?_, fun _ => ⟨?_, ?_⟩,
      fun hh => PMode.noConfusion hh⟩ <;> dsimp only <;> omega
  · refine ⟨hs, hsx, hsy, hinsts, ?_, ?_, fun _ => ⟨?_, ?_⟩,
      fun hh => PMode.noConfusion hh⟩ <;> dsimp only <;> omega
  · refine ⟨sok_revNewLine _ hs, hsx, hsy, hinsts, ?_, ?_,
      fun hh => absurd rfl hh,
      fun hh => PMode.noConfusion hh⟩ <;> dsimp only <;> omega
  · refine ⟨hs, hs.1, hs.2.1, hinsts, ?_, ?_, fun hh => absurd rfl hh,
      fun hh => PMode.noConfusion hh⟩ <;> dsimp only <;> omega
  · refine ⟨⟨hsx, hsy, hs.2.2.1, hs.2.2.2⟩, hsx, hsy, hinsts, ?_, ?_,
      fun hh => absurd rfl hh,
      fun hh => PMode.noConfusion hh⟩ <;> dsimp only <;> omega
  · refine ⟨hs, hsx, hsy, hinsts, ?_, ?_, fun hh => absurd rfl hh,
      fun hh => PMode.noConfusion hh⟩ <;> dsimp only <;> omega

/-- One parser step taken in control mode preserves the invariant. -/
theorem pinv_step_control (co : Collab) (p : PState) (h : PInv p)
    (hm : p.mode = PMode.control) (hlt : p.cursor < (p.buffer.length : Int)) :
    PInv (p.step co) := by
  obtain ⟨hs, hsx, hsy, hinsts, hc0, hcl, hesc, hctl⟩ := h
  have hE := hesc (by rw [hm]; exact fun hh => PMode.noConfusion hh)
  have hC := hctl hm
  have hwf0 := hC.2.2
  unfold ctlRegion at hwf0
  obtain ⟨b, rest, hdrop, hk1, hkle⟩ := step_decode_facts p hc0 hlt
  unfold PState.step
  dsimp only
  rw [hm, hdrop]
  dsimp only
  unfold PState.handleControlSequence
  dsimp only
  split_ifs with h1 h2 h3 h4
  · have hlow : toUpper (decodeRune (b :: rest)).1 < 0x40 := by
      rcases h1 with h1 | h1 <;> omega
    have htu := toUpper_low _ hlow
    obtain ⟨hbeq, hkeq⟩ := decode_ascii_cons b rest (by omega)
    have hreg : wfInst ((p.buffer.drop p.instructionStartedAt.toNat).take
        ((p.cursor + ((decodeRune (b :: rest)).2 : Int))
          - p.instructionStartedAt).toNat) := by
      rw [hkeq]
      simp only [Nat.cast_one]
      exact wf_region_succ p.buffer p.instructionStartedAt p.cursor b rest
        (by omega) hC.2.1 hdrop hwf0 (by omega)
    refine ⟨hs, hsx, hsy, hinsts, ?_, ?_, fun _ => ⟨?_, ?_⟩,
      fun _ => ⟨?_, ?_, hreg⟩⟩ <;> (try dsimp only) <;> omega
  · have htu := toUpper_low (decodeRune (b :: rest)).1 (by omega)
    obtain ⟨hbeq, hkeq⟩ := decode_ascii_cons b rest (by omega)
    unfold PState.addInstruction
    dsimp only
    split_ifs with hi
    · have hreg : wfInst ((p.buffer.drop (p.cursor + 1).toNat).take
          ((p.cursor + ((decodeRune (b :: rest)).2 : Int)) - (p.cursor + 1)).toNat) :=
        wfInst_take_zero _ _ (by omega)
      refine ⟨hs, hsx, hsy, hinsts, ?_, ?_, fun _ => ⟨?_, ?_⟩,
        fun _ => ⟨?_, ?_, hreg⟩⟩ <;> (try dsimp only) <;> omega
    · have hreg : wfInst ((p.buffer.drop (p.cursor + 1).toNat).take
          ((p.cursor + ((decodeRune (b :: rest)).2 : Int)) - (p.cursor + 1)).toNat) :=
        wfInst_take_zero _ _ (by omega)
      refine ⟨hs, hsx, hsy, wfInsts_snoc _ _ hinsts hwf0, ?_, ?_,
        fun _ => ⟨?_, ?_⟩, fun _ => ⟨?_, ?_, hreg⟩⟩ <;>
        (try dsimp only) <;> omega
  · unfold PState.addInstruction
    dsimp only
    split_ifs with hi
    · refine ⟨sok_applyEscape _ _ _ hinsts hs, hsx, hsy, hinsts, ?_, ?_,
        fun hh => absurd rfl hh, fun hh => PMode.noConfusion hh⟩ <;>
        (try dsimp only) <;> omega
    · refine ⟨sok_applyEscape _ _ _ (wfInsts_snoc _ _ hinsts hwf0) hs, hsx, hsy,
        wfInsts_snoc _ _ hinsts hwf0, ?_, ?_,
        fun hh => absurd rfl hh, fun hh => PMode.noConfusion hh⟩ <;>
        (try dsimp only) <;> omega
  · refine ⟨hs, hsx, hsy, hinsts, ?_, ?_, fun hh => absurd rfl hh,
      fun hh => PMode.noConfusion hh⟩ <;> (try dsimp only) <;> omega
  · refine ⟨hs, hsx, hsy, hinsts, ?_, ?_, fun hh => absurd rfl hh,
      fun hh => PMode.noConfusion hh⟩ <;> (try dsimp only) <;> omega

/-- One parser step taken in OSC mode preserves the invariant. -/
theorem pinv_step_osc (co : Collab) (p : PState) (h : PInv p)
    (hm : p.mode = PMode.osc) (hlt : p.cursor < (p.buffer.length : Int)) :
    PInv (p.step co) := by
  obtain ⟨hs, hsx, hsy, hinsts, hc0, hcl, hesc, hctl⟩ := id h
  have hE := hesc (by rw [hm]; exact fun hh => PMode.noConfusion hh)
  obtain ⟨b, rest, hdrop, hk1, hkle⟩ := step_decode_facts p hc0 hlt
  unfold PState.step
  dsimp only
  rw [hm, hdrop]
  dsimp only
  unfold PState.handleOSC
  split_ifs with h1 h2
  · obtain ⟨hq, hqc, hqb, hqm⟩ := pinv_processOSC co p p.cursor h
    obtain ⟨qs, qsx, qsy, qinsts, qc0, qcl, -, -⟩ := hq
    have hqbl : (((p.processOSC co p.cursor).buffer.length : Int))
        = (p.buffer.length : Int) := by rw [hqb]
    refine ⟨qs, qsx, qsy, qinsts, ?_, ?_, fun hh => absurd hqm hh,
      fun hh => PMode.noConfusion (hqm.symm.trans hh)⟩ <;>
      (try dsimp only) <;> omega
  · refine ⟨hs, hsx, hsy, hinsts, ?_, ?_, fun _ => ⟨?_, ?_⟩,
      fun hh => PMode.noConfusion hh⟩ <;> (try dsimp only) <;> omega
  · refine ⟨hs, hsx, hsy, hinsts, ?_, ?_, fun _ => ⟨?_, ?_⟩,
      fun hh => PMode.noConfusion (hm.symm.trans hh)⟩ <;>
      (try dsimp only) <;> omega

/-- One parser step taken just after ESC inside an OSC preserves the
invariant. -/
theorem pinv_step_oscEsc (co : Collab) (p : PState) (h : PInv p)
    (hm : p.mode = PMode.oscEsc) (hlt : p.cursor < (p.buffer.length : Int)) :
    PInv (p.step co) := by
  obtain ⟨hs, hsx, hsy, hinsts, hc0, hcl, hesc, hctl⟩ := id h
  have hE := hesc (by rw [hm]; exact fun hh => PMode.noConfusion hh)
  obtain ⟨b, rest, hdrop, hk1, hkle⟩ := step_decode_facts p hc0 hlt
  unfold PState.step
  dsimp only
  rw [hm, hdrop]
  dsimp only
  unfold PState.handleOSCEscape
  split_ifs with h1
  · obtain ⟨hq, hqc, hqb, hqm⟩ := pinv_processOSC co p (p.cursor - 1) h
    obtain ⟨qs, qsx, qsy, qinsts, qc0, qcl, -, -⟩ := hq
    have hqbl : (((p.processOSC co (p.cursor - 1)).buffer.length : Int))
        = (p.buffer.length : Int) := by rw [hqb]
    refine ⟨qs, qsx, qsy, qinsts, ?_, ?_, fun hh => absurd hqm hh,
      fun hh => PMode.noConfusion (hqm.symm.trans hh)⟩ <;>
      (try dsimp only) <;> omega
  · refine ⟨hs, hsx, hsy, hinsts, ?_, ?_, fun _ => ⟨?_, ?_⟩,
      fun hh => PMode.noConfusion hh⟩ <;> (try dsimp only) <;> omega

/-- One parser step taken in APC mode preserves the invariant. -/
theorem pinv_step_apc (co : Collab) (p : PState) (h : PInv p)
    (hm : p.mode = PMode.apc) (hlt : p.cursor < (p.buffer.length : Int)) :
    PInv (p.step co) := by
  obtain ⟨hs, hsx, hsy, hinsts, hc0, hcl, hesc, hctl⟩ := id h
  have hE := hesc (by rw [hm]; exact fun hh => PMode.noConfusion hh)
  obtain ⟨b, rest, hdrop, hk1, hkle⟩ := step_decode_facts p hc0 hlt
  unfold PState.step
  dsimp only
  rw [hm, hdrop]
  dsimp only
  unfold PState.handleAPC
  split_ifs with h1 h2
  · obtain ⟨hq, hqc, hqb, hqm⟩ := pinv_processAPC co p p.cursor h
    obtain ⟨qs, qsx, qsy, qinsts, qc0, qcl, -, -⟩ := hq
    have hqbl : (((p.processAPC co p.cursor).buffer.length : Int))
        = (p.buffer.length : Int) := by rw [hqb]
    refine ⟨qs, qsx, qsy, qinsts, ?_, ?_, fun hh => absurd hqm hh,
      fun hh => PMode.noConfusion (hqm.symm.trans hh)⟩ <;>
      (try dsimp only) <;> omega
  · refine ⟨hs, hsx, hsy, hinsts, ?_, ?_, fun _ => ⟨?_, ?_⟩,
      fun hh => PMode.noConfusion hh⟩ <;> (try dsimp only) <;> omega
  · refine ⟨hs, hsx, hsy, hinsts, ?_, ?_, fun _ => ⟨?_, ?_⟩,
      fun hh => PMode.noConfusion (hm.symm.trans hh)⟩ <;>
      (try dsimp only) <;> omega

/-- One parser step taken just after ESC inside an APC preserves the
invariant. -/
theorem pinv_step_apcEsc (co : Collab) (p : PState) (h : PInv p)
    (hm : p.mode = PMode.apcEsc) (hlt : p.cursor < (p.buffer.length : Int)) :
    PInv (p.step co) := by
  obtain ⟨hs, hsx, hsy, hinsts, hc0, hcl, hesc, hctl⟩ := id h
  have hE := hesc (by rw [hm]; exact fun hh => PMode.noConfusion hh)
  obtain ⟨b, rest, hdrop, hk1, hkle⟩ := step_decode_facts p hc0 hlt
  unfold PState.step
  dsimp only
  rw [hm, hdrop]
  dsimp only
  unfold PState.handleAPCEscape
  split_ifs with h1
  · obtain ⟨hq, hqc, hqb, hqm⟩ := pinv_processAPC co p (p.cursor - 1) h
    obtain ⟨qs, qsx, qsy, qinsts, qc0, qcl, -, -⟩ := hq
    have hqbl : (((p.processAPC co (p.cursor - 1)).buffer.length : Int))
        = (p.buffer.length : Int) := by rw [hqb]
    refine ⟨qs, qsx, qsy, qinsts, ?_, ?_, fun hh => absurd hqm hh,
      fun hh => PMode.noConfusion (hqm.symm.trans hh)⟩ <;>
      (try dsimp only) <;> omega
  · refine ⟨hs, hsx, hsy, hinsts, ?_, ?_, fun _ => ⟨?_, ?_⟩,
      fun hh => PMode.noConfusion hh⟩ <;> (try dsimp only) <;> omega

/-- One parser step under the loop guard preserves the invariant. -/
theorem pinv_step (co : Collab) (p : PState) (h : PInv p)
    (hlt : p.cursor < (p.buffer.length : Int)) : PInv (p.step co) := by
  rcases hm : p.mode
  · exact pinv_step_normal co p h hm hlt
  · exact pinv_step_escape co p h hm hlt
  · exact pinv_step_control co p h hm hlt
  · exact pinv_step_osc co p h hm hlt
  · exact pinv_step_oscEsc co p h hm hlt
  · exact pinv_step_charset co p h hm hlt
  · exact pinv_step_apc co p h hm hlt
  · exact pinv_step_apcEsc co p h hm hlt

/-- The whole parse loop preserves the invariant, at every fuel. -/
theorem pinv_runLoop (co : Collab) (fuel : Nat) (p : PState) (h : PInv p) :
    PInv (runLoop co fuel p) := by
  induction fuel generalizing p with
  | zero => exact h
  | succ n ih =>
    unfold runLoop
    split
    · rename_i hlt
      exact ih _ (pinv_step co p h hlt)
    · exact h

/-- Appending fresh input to the residual buffer preserves the invariant. -/
theorem pinv_extend (p : PState) (input : List Nat) (h : PInv p) :
    PInv { p with buffer := p.buffer ++ input } := by
  obtain ⟨hs, hsx, hsy, hinsts, hc0, hcl, hesc, hctl⟩ := h
  refine ⟨hs, hsx, hsy, hinsts, hc0, ?_, hesc, ?_⟩
  · dsimp only
    rw [List.length_append]
    omega
  · intro hcm
    have hC := hctl hcm
    have hE := hesc (fun hh => PMode.noConfusion (Eq.trans (Eq.symm hcm) hh))
    refine ⟨hC.1, hC.2.1, ?_⟩
    unfold ctlRegion
    dsimp only
    rw [ctlRegion_append p.buffer input p.instructionStartedAt p.cursor
      (by omega) hC.2.1 hcl]
    have hreg := hC.2.2
    unfold ctlRegion at hreg
    exact hreg

/-- Trimming the fully-processed prefix at the end of parseToScreen
preserves the invariant. -/
theorem pinv_trim (q : PState) (h : PInv q) :
    PInv (let done := if q.mode = PMode.normal then q.cursor else q.escapeStartedAt
      { q with buffer := q.buffer.drop done.toNat,
               cursor := q.cursor - done,
               instructionStartedAt := q.instructionStartedAt - done,
               escapeStartedAt := q.escapeStartedAt - done }) := by
  obtain ⟨hs, hsx, hsy, hinsts, hc0, hcl, hesc, hctl⟩ := h
  dsimp only
  by_cases hmn : q.mode = PMode.normal
  · rw [if_pos hmn]
    refine ⟨hs, hsx, hsy, hinsts, ?_, ?_, fun hh => absurd hmn hh,
      fun hh => PMode.noConfusion (Eq.trans (Eq.symm hh) hmn)⟩
    · dsimp only
      omega
    · dsimp only
      rw [List.length_drop]
      omega
  · rw [if_neg hmn]
    have hE := hesc hmn
    refine ⟨hs, hsx, hsy, hinsts, ?_, ?_, fun _ => ⟨?_, ?_⟩, ?_⟩
    · dsimp only
      omega
    · dsimp only
      rw [List.length_drop]
      omega
    · dsimp only
      omega
    · dsimp only
      omega
    · intro hh
      have hC := hctl hh
      refine ⟨by dsimp only; omega, by dsimp only; omega, ?_⟩
      unfold ctlRegion
      dsimp only
      rw [ctlRegion_shift q.buffer q.escapeStartedAt q.instructionStartedAt
        q.cursor hE.1 hC.1 hC.2.1]
      have hreg := hC.2.2
      unfold ctlRegion at hreg
      exact hreg

/-- parseToScreen preserves the invariant. -/
theorem pinv_parseToScreen (co : Collab) (p : PState) (input : List Nat)
    (h : PInv p) : PInv (p.parseToScreen co input) := by
  have h1 := pinv_extend p input h
  have h2 := pinv_runLoop co (2 * (p.buffer ++ input).length + 2)
    { p with buffer := p.buffer ++ input } h1
  exact pinv_trim (runLoop co (2 * (p.buffer ++ input).length + 2)
    { p with buffer := p.buffer ++ input }) h2

/-- C9: from any state satisfying the parser invariant -- as a fresh screen
does -- every intermediate state of the Write processing loop (each loop
iteration applies exactly one of the reachable mutations: append, newLine,
carriageReturn, backspace, revNewLine, appendElement, setLineMetadata, or
applyEscape with parser-accumulated parameters) and the final state after
Write keep both cursor coordinates nonnegative, and the invariant itself is
preserved. -/
theorem c9_cursor_coordinates_nonnegative (co : Collab) (p : PState)
    (input : List Nat) (fuel : Nat) (h : PInv p) :
    (0 ≤ (runLoop co fuel { p with buffer := p.buffer ++ input }).screen.x
      ∧ 0 ≤ (runLoop co fuel { p with buffer := p.buffer ++ input }).screen.y)
    ∧ PInv ((p.goWrite co input).1)
    ∧ 0 ≤ ((p.goWrite co input).1).screen.x
    ∧ 0 ≤ ((p.goWrite co input).1).screen.y := by
  have h1 := pinv_extend p input h
  have hF := pinv_runLoop co fuel { p with buffer := p.buffer ++ input } h1
  have hP : PInv (p.parseToScreen co input) := pinv_parseToScreen co p input h
  exact ⟨⟨hF.1.1, hF.1.2.1⟩, hP, hP.1.1, hP.1.2.1⟩

/-- C9 witness: the fresh screen satisfies the invariant, and a concrete
write of text, backspaces, a CSI cursor command and a newline keeps both
coordinates nonnegative at an intermediate loop state and at the end. -/
theorem c9_cursor_coordinates_nonnegative_witness :
    (0 ≤ (runLoop defaultCollab 20 { newScreen with
        buffer := newScreen.buffer ++ [0x61, 0x08, 0x08, 0x1B, 0x5B, 0x35, 0x44, 0x0A] }).screen.x
      ∧ 0 ≤ (runLoop defaultCollab 20 { newScreen with
        buffer := newScreen.buffer ++ [0x61, 0x08, 0x08, 0x1B, 0x5B, 0x35, 0x44, 0x0A] }).screen.y)
    ∧ PInv ((newScreen.goWrite defaultCollab
        [0x61, 0x08, 0x08, 0x1B, 0x5B, 0x35, 0x44, 0x0A]).1)
    ∧ 0 ≤ ((newScreen.goWrite defaultCollab
        [0x61, 0x08, 0x08, 0x1B, 0x5B, 0x35, 0x44, 0x0A]).1).screen.x
    ∧ 0 ≤ ((newScreen.goWrite defaultCollab
        [0x61, 0x08, 0x08, 0x1B, 0x5B, 0x35, 0x44, 0x0A]).1).screen.y :=
  c9_cursor_coordinates_nonnegative defaultCollab newScreen
    [0x61, 0x08, 0x08, 0x1B, 0x5B, 0x35, 0x44, 0x0A] 20
    (by unfold PInv ScreenOK wfInst ctlRegion; decide)

end TermToHtml
